import Mathlib

/-!
# A verification development for the `POST /bfhl` request handler (`src/index.js`)

The program is JavaScript, so every number it touches is an IEEE-754 binary64
value.  The embedding keeps that: a finite number is stored as an integer
count of the smallest binary64 spacing `2^-1074` (every finite binary64 value
is such a multiple), and `+`, `*`, `/` round their exact result to the nearest
representable value, ties to even, overflowing to an infinity.  `%` is exact,
as it is in IEEE arithmetic.  The sign of zero is not tracked: no operation of
the handler tells `-0` from `0` (the only divisor it ever uses is a value
returned by `gcd` on arguments that were validated to be positive).

Strings are sequences of UTF-16 code units, as in JavaScript.
-/

set_option exponentiation.threshold 4000
set_option maxRecDepth 200000

namespace Bfhl

/-! ## Numbers -/

/-- The number one, counted in units of `2^-1074`. -/
def UNIT : Nat := 2 ^ 1074

/-- First magnitude (in units of `2^-1074`) that no longer rounds to a finite
binary64 value: `2^1024`. -/
def OVERFLOW : Nat := 2 ^ 2098

/-- A JavaScript number. `fin k` is the finite value `k * 2^-1074`. -/
inductive JSNum where
  | fin (k : Int)
  | inf (neg : Bool)
  | nan
  deriving DecidableEq, Repr

namespace JSNum

/-- The JavaScript number denoting the natural number `n` (exact when `n` is
representable). -/
def ofNat (n : Nat) : JSNum := fin ((n * UNIT : Nat) : Int)

/-- The JavaScript number denoting the integer `z`. -/
def ofInt (z : Int) : JSNum := fin (z * (UNIT : Int))

end JSNum

/-- How many low-order bits a magnitude `q` has to lose to fit in the 53 bits
of a binary64 significand: the least `e` with `q / 2^e < 2^53`. The first
argument bounds the number of halvings. -/
def shiftCount : Nat → Nat → Nat
  | 0, _ => 0
  | f + 1, q => if q < 2 ^ 53 then 0 else shiftCount f (q / 2) + 1

/-- Round the exact non-negative quotient `n / d` (in units of `2^-1074`) to
the binary64 grid, to nearest, ties to even. The result is again in units. -/
def roundRatio (n d : Nat) : Nat :=
  let q := n / d
  let e := shiftCount q q
  let D := d * 2 ^ e
  let m := n / D
  let r := n % D
  let up : Bool := decide (D < 2 * r) || (decide (2 * r = D) && decide (m % 2 = 1))
  (if up then m + 1 else m) * 2 ^ e

/-- The binary64 value nearest to `± n / d` units, or an infinity on overflow. -/
def roundTo (neg : Bool) (n d : Nat) : JSNum :=
  let k := roundRatio n d
  if OVERFLOW ≤ k then JSNum.inf neg
  else JSNum.fin (if neg then -(k : Int) else (k : Int))

/-- JavaScript `a + b` on numbers. -/
def jsAdd : JSNum → JSNum → JSNum
  | .fin a, .fin b => roundTo (decide (a + b < 0)) (a + b).natAbs 1
  | .fin _, .inf s => .inf s
  | .inf s, .fin _ => .inf s
  | .inf s, .inf t => if s = t then .inf s else .nan
  | _, _ => .nan

/-- JavaScript `a * b` on numbers. -/
def jsMul : JSNum → JSNum → JSNum
  | .fin a, .fin b => roundTo (xor (decide (a < 0)) (decide (b < 0))) (a.natAbs * b.natAbs) UNIT
  | .fin a, .inf s => if a = 0 then .nan else .inf (xor (decide (a < 0)) s)
  | .inf s, .fin b => if b = 0 then .nan else .inf (xor s (decide (b < 0)))
  | .inf s, .inf t => .inf (xor s t)
  | _, _ => .nan

/-- JavaScript `a / b` on numbers. -/
def jsDiv : JSNum → JSNum → JSNum
  | .fin a, .fin b =>
      if b = 0 then (if a = 0 then .nan else .inf (decide (a < 0)))
      else roundTo (xor (decide (a < 0)) (decide (b < 0))) (a.natAbs * UNIT) b.natAbs
  | .fin _, .inf _ => .fin 0
  | .inf s, .fin b => .inf (xor s (decide (b < 0)))
  | .inf _, .inf _ => .nan
  | _, _ => .nan

/-- JavaScript `a % b` on numbers: the remainder has the sign of the dividend
and is exact. -/
def jsMod : JSNum → JSNum → JSNum
  | .fin a, .fin b => if b = 0 then .nan else .fin (Int.tmod a b)
  | .fin a, .inf _ => .fin a
  | _, _ => .nan

/-- JavaScript `a === b` on numbers. -/
def jsStrictEq : JSNum → JSNum → Bool
  | .fin a, .fin b => decide (a = b)
  | .inf s, .inf t => decide (s = t)
  | _, _ => false

/-- JavaScript `a < b` on numbers. -/
def jsLt : JSNum → JSNum → Bool
  | .fin a, .fin b => decide (a < b)
  | .fin _, .inf t => !t
  | .inf s, .fin _ => s
  | .inf s, .inf t => s && !t
  | _, _ => false

/-- JavaScript `a <= b` on numbers. -/
def jsLe : JSNum → JSNum → Bool
  | .fin a, .fin b => decide (a ≤ b)
  | .fin _, .inf t => !t
  | .inf s, .fin _ => s
  | .inf s, .inf t => s || !t
  | _, _ => false

/-- JavaScript `a > b` on numbers. -/
def jsGt (a b : JSNum) : Bool := jsLt b a

/-- `Number.isInteger` on a number. -/
def numIsInteger : JSNum → Bool
  | .fin k => decide ((UNIT : Int) ∣ k)
  | _ => false

/-! ## Strings and JSON values -/

/-- A JavaScript string: its UTF-16 code units. -/
abbrev JSString := List Nat

/-- The code units of an (ASCII) string constant of the source. -/
def lit (s : String) : JSString := s.toList.map Char.toNat

/-- The code units matched by `\s` and stripped by `trim()`. -/
def isWhite (c : Nat) : Bool :=
  (decide (9 ≤ c) && decide (c ≤ 13)) || c == 32 || c == 160 || c == 5760 ||
  (decide (8192 ≤ c) && decide (c ≤ 8202)) || c == 8232 || c == 8233 || c == 8239 ||
  c == 8287 || c == 12288 || c == 65279

/-- `s.trim()`. -/
def trim (s : JSString) : JSString :=
  ((s.dropWhile isWhite).reverse.dropWhile isWhite).reverse

/-- A value as `JSON.parse` delivers it; an object is the list of its own
enumerable properties in `Object.keys` order. Numbers computed by the handler
(which may be infinite or NaN before serialisation) use the same type. -/
inductive JSON where
  | null
  | bool (b : Bool)
  | num (x : JSNum)
  | str (s : JSString)
  | arr (xs : List JSON)
  | obj (kvs : List (JSString × JSON))

/-- The response envelope together with its HTTP status. `data` is `none`
when the field would be `undefined`. -/
structure Response where
  status : Nat
  is_success : Bool
  official_email : JSString
  data : Option JSON

/-- What the external text-generation call does: it rejects (timeout,
transport error, HTTP error status) or resolves with a response body. -/
inductive AIResult where
  | failure
  | success (data : JSON)

/-- The observable behaviour of one request: the prompts submitted to the
external collaborator, in order, and the response sent. -/
structure Outcome where
  prompts : List JSString
  response : Response

/-- An exception raised while the handler runs. -/
inductive Thrown where
  | rangeError
  | typeError

/-! ## The source's constants and helpers -/

def email : JSString := lit "kavya0543.be23@chitkara.edu.in"

def allowedKeys : List JSString :=
  [lit "fibonacci", lit "prime", lit "lcm", lit "hcf", lit "AI"]

/-- The envelope `safeError(res, status, msg)` sends. -/
def safeError (status : Nat) (msg : String) : Response :=
  Response.mk status false email (some (JSON.str (lit msg)))

/-- The envelope of the final `res.status(200).json(...)`. -/
def success (result : Option JSON) : Response :=
  Response.mk 200 true email result

/-- The loop of `isPrime`: `for (let i = 2; i * i <= n; i++)`. The first
argument bounds the number of times the loop condition is evaluated; `none`
means the loop is still running when the budget ends. -/
def isPrimeLoop (n : JSNum) : Nat → JSNum → Option Bool
  | 0, _ => none
  | steps + 1, i =>
      if jsLe (jsMul i i) n then
        if jsStrictEq (jsMod n i) (JSNum.ofNat 0) then some false
        else isPrimeLoop n steps (jsAdd i (JSNum.ofNat 1))
      else some true

/-- The source's `isPrime`. -/
def isPrime (steps : Nat) (n : JSNum) : Option Bool :=
  if jsLt n (JSNum.ofNat 2) then some false else isPrimeLoop n steps (JSNum.ofNat 2)

/-- The source's `gcd = (a, b) => (b === 0 ? a : gcd(b, a % b))`. The first
argument is the number of stack frames available to the recursion; running
out of them raises a `RangeError`. -/
def gcd : Nat → JSNum → JSNum → Except Thrown JSNum
  | 0, _, _ => .error .rangeError
  | depth + 1, a, b =>
      if jsStrictEq b (JSNum.ofNat 0) then .ok a else gcd depth b (jsMod a b)

/-- The source's `lcm = (a, b) => (a * b) / gcd(a, b)`. -/
def lcm (depth : Nat) (a b : JSNum) : Except Thrown JSNum :=
  let p := jsMul a b
  match gcd depth a b with
  | .ok g => .ok (jsDiv p g)
  | .error e => .error e

/-- `xs.reduce(f)` without an initial value. -/
def reduce (f : JSNum → JSNum → Except Thrown JSNum) : List JSNum → Except Thrown JSNum
  | [] => .error .typeError
  | x :: xs => xs.foldlM f x

/-! ## The handler of `POST /bfhl` -/

/-- `Number.isInteger(v)` on an arbitrary value. -/
def isInteger : JSON → Bool
  | .num x => numIsInteger x
  | _ => false

/-- The own enumerable properties of a body for which `typeof` is `"object"`:
those of an object, or the indices of an array. -/
def ownEntries : JSON → List (JSString × JSON)
  | .obj kvs => kvs
  | .arr xs => xs.enum.map (fun p => (lit (toString p.1), p.2))
  | _ => []

/-- The guard `!req.body || typeof req.body !== "object"`. -/
def notAnObject : Option JSON → Bool
  | some (.obj _) => false
  | some (.arr _) => false
  | _ => true

/-- The Fibonacci loop: `count` rounds of `result.push(a); [a, b] = [b, a + b]`. -/
def fibLoop : Nat → JSNum → JSNum → List JSNum → List JSNum
  | 0, _, _, result => result
  | count + 1, a, b, result => fibLoop count b (jsAdd a b) (result ++ [a])

/-- The number of iterations of `for (let i = 0; i < value; i++)` for a
validated `value` (an integer between 0 and 1000). -/
def loopCount : JSNum → Nat
  | .fin k => (k / (UNIT : Int)).toNat
  | _ => 0

/-- The callback `(n) => Number.isInteger(n) && isPrime(n)`. -/
def keepPrime (steps : Nat) : JSON → Option Bool
  | .num x => if numIsInteger x then isPrime steps x else some false
  | _ => some false

/-- The call `value.filter((n) => Number.isInteger(n) && isPrime(n))`. -/
def primeFilter (steps : Nat) : List JSON → Option (List JSON)
  | [] => some []
  | v :: vs =>
      match keepPrime steps v with
      | none => none
      | some keep =>
          match primeFilter steps vs with
          | none => none
          | some rest => some (if keep then v :: rest else rest)

/-- The callback `(n) => !Number.isInteger(n) || n <= 0`. -/
def invalidElem : JSON → Bool
  | .num x => !numIsInteger x || jsLe x (JSNum.ofNat 0)
  | _ => true

/-- The numbers of an array (after validation every element is one). -/
def numbers : List JSON → List JSNum
  | [] => []
  | .num x :: vs => x :: numbers vs
  | _ :: vs => numbers vs

/-- The link `v?.name` of the optional chain, for a property name that no
built-in prototype defines. `none` is `undefined`. -/
def optMember (name : JSString) : Option JSON → Option JSON
  | some (.obj kvs) => kvs.lookup name
  | _ => none

/-- The link `v?.[0]` of the optional chain. -/
def optIndex0 : Option JSON → Option JSON
  | some (.arr (x :: _)) => some x
  | some (.str (c :: _)) => some (.str [c])
  | some (.obj kvs) => kvs.lookup (lit "0")
  | _ => none

/-- The expression
`aiRes.data?.candidates?.[0]?.content?.parts?.[0]?.text?.split(/\s+/)[0] || "Unknown"`. -/
def extractText (data : JSON) : Except Thrown JSString :=
  match optMember (lit "text") (optIndex0 (optMember (lit "parts")
      (optMember (lit "content") (optIndex0 (optMember (lit "candidates") (some data)))))) with
  | none => .ok (lit "Unknown")
  | some .null => .ok (lit "Unknown")
  | some (.str s) =>
      let first := s.takeWhile (fun c => !isWhite c)
      .ok (if first.isEmpty then lit "Unknown" else first)
  | some _ => .error .typeError

/-- The inner `try { ... } catch (error) { ... result = "Unavailable" }`. -/
def aiResult (r : AIResult) : JSString :=
  match r with
  | .failure => lit "Unavailable"
  | .success data =>
      match extractText data with
      | .ok s => s
      | .error _ => lit "Unavailable"

/-- The part of the handler after the allow-list check: the branch of the
single `key` applied to its `value`. -/
def dispatch (depth steps : Nat) (ai : JSString → AIResult) (key : JSString) (value : JSON) :
    Option Outcome :=
  if key = lit "fibonacci" then
    match value with
    | .num x =>
        if !numIsInteger x || jsLt x (JSNum.ofNat 0) || jsGt x (JSNum.ofNat 1000) then
          some ⟨[], safeError 400 "Invalid fibonacci input"⟩
        else
          some ⟨[], success (some (.arr
            ((fibLoop (loopCount x) (JSNum.ofNat 0) (JSNum.ofNat 1) []).map JSON.num)))⟩
    | _ => some ⟨[], safeError 400 "Invalid fibonacci input"⟩
  else if key = lit "prime" then
    match value with
    | .arr (v :: vs) =>
        match primeFilter steps (v :: vs) with
        | some result => some ⟨[], success (some (.arr result))⟩
        | none => none
    | _ => some ⟨[], safeError 400 "Prime input must be non-empty array"⟩
  else if key = lit "lcm" then
    match value with
    | .arr (v :: vs) =>
        if (v :: vs).any invalidElem then some ⟨[], safeError 400 "Invalid LCM input"⟩
        else
          match reduce (lcm depth) (numbers (v :: vs)) with
          | .ok r => some ⟨[], success (some (.num r))⟩
          | .error _ => some ⟨[], safeError 500 "Internal server error"⟩
    | _ => some ⟨[], safeError 400 "Invalid LCM input"⟩
  else if key = lit "hcf" then
    match value with
    | .arr (v :: vs) =>
        if (v :: vs).any invalidElem then some ⟨[], safeError 400 "Invalid HCF input"⟩
        else
          match reduce (gcd depth) (numbers (v :: vs)) with
          | .ok r => some ⟨[], success (some (.num r))⟩
          | .error _ => some ⟨[], safeError 500 "Internal server error"⟩
    | _ => some ⟨[], safeError 400 "Invalid HCF input"⟩
  else if key = lit "AI" then
    match value with
    | .str s =>
        if (trim s).length = 0 then some ⟨[], safeError 400 "Invalid AI input"⟩
        else
          let prompt := s.take 500
          some ⟨[prompt], success (some (.str (aiResult (ai prompt))))⟩
    | _ => some ⟨[], safeError 400 "Invalid AI input"⟩
  else some ⟨[], success none⟩

/-- The handler `app.post("/bfhl", async (req, res) => ...)`: `body` is
`req.body` (`none` when it is `undefined`), `ai` is the behaviour of the
external call on a prompt, `depth` the stack available to `gcd` and `steps`
the iteration budget of each loop of `isPrime`. `none` means that no response
has been sent when the iteration budget ends. -/
def bfhl (depth steps : Nat) (ai : JSString → AIResult) (body : Option JSON) : Option Outcome :=
  if notAnObject body then some ⟨[], safeError 400 "Invalid JSON body"⟩
  else
    match body with
    | none => some ⟨[], safeError 400 "Invalid JSON body"⟩
    | some b =>
        let entries := ownEntries b
        let keys := entries.map Prod.fst
        if lit "__proto__" ∈ keys then some ⟨[], safeError 400 "Invalid input"⟩
        else if keys.length ≠ 1 then some ⟨[], safeError 400 "Exactly one key is required"⟩
        else
          match entries with
          | [(key, value)] =>
              if key ∉ allowedKeys then some ⟨[], safeError 400 "Invalid key"⟩
              else dispatch depth steps ai key value
          | _ => some ⟨[], safeError 400 "Exactly one key is required"⟩

/-! ## Predicates used to state the properties -/

/-- The number is a binary64 value: rounding leaves it unchanged and it is
below the overflow threshold. -/
def isDouble : JSNum → Bool
  | .fin k => decide (roundRatio k.natAbs 1 = k.natAbs) && decide (k.natAbs < OVERFLOW)
  | _ => true

/-- The element is an integer on which `isPrime` returns `true` within the
iteration budget. -/
def integerAndPrime (steps : Nat) : JSON → Bool
  | .num x => numIsInteger x && (isPrime steps x == some true)
  | _ => false

/-- The value found by the optional chain
`aiRes.data?.candidates?.[0]?.content?.parts?.[0]?.text`; `none` is `undefined`. -/
def textAt (data : JSON) : Option JSON :=
  optMember (lit "text") (optIndex0 (optMember (lit "parts")
    (optMember (lit "content") (optIndex0 (optMember (lit "candidates") (some data))))))

/-- The first whitespace-delimited token of a text, in the words of the
specification: the first maximal run of non-whitespace code units. -/
def firstToken (text : JSString) : JSString :=
  (text.dropWhile isWhite).takeWhile (fun c => !isWhite c)

/-- The uniform envelope: the fixed e-mail address, a defined `data` field, a
status among 200, 400 and 500, `is_success` true exactly for status 200, and a
message string as data whenever `is_success` is false. -/
def Envelope (r : Response) : Prop :=
  r.official_email = email ∧ r.data ≠ none ∧ (r.is_success = true ↔ r.status = 200)
    ∧ (r.status = 200 ∨ r.status = 400 ∨ r.status = 500)
    ∧ (r.is_success = false → ∃ msg, r.data = some (.str msg))

/-- Every number that is an element of an array-valued property of the body
is a binary64 value (as it is after `JSON.parse`). -/
def ParsedNumbers (body : Option JSON) : Prop :=
  ∀ b key xs x, body = some b → (key, JSON.arr xs) ∈ ownEntries b → JSON.num x ∈ xs →
    isDouble x = true

/-! ## Facts about the number model -/

theorem UNIT_pos : 0 < UNIT := Nat.two_pow_pos _

theorem shiftCount_le (f : Nat) : ∀ (q t : Nat), q / 2 ^ t < 2 ^ 53 → shiftCount f q ≤ t := by
  induction f with
  | zero => intro q t _; simp [shiftCount]
  | succ f ih =>
      intro q t h
      rw [shiftCount]
      split_ifs with hq
      · exact Nat.zero_le _
      · cases t with
        | zero => simp at h; omega
        | succ t =>
            have h2 : q / 2 / 2 ^ t < 2 ^ 53 := by
              rw [Nat.div_div_eq_div_mul, ← Nat.pow_succ']
              exact h
            have := ih (q / 2) t h2
            omega

theorem shiftCount_ge (t : Nat) : ∀ (f q : Nat), 2 ^ (53 + t) ≤ q → q ≤ f → t + 1 ≤ shiftCount f q := by
  induction t with
  | zero =>
      intro f q hq hf
      cases f with
      | zero =>
          have : 0 < 2 ^ (53 + 0) := Nat.two_pow_pos _
          omega
      | succ f =>
          have hlt : ¬ q < 2 ^ 53 := by simpa using hq
          rw [shiftCount, if_neg hlt]
          omega
  | succ t ih =>
      intro f q hq hf
      have hpos : 0 < 2 ^ (53 + t) := Nat.two_pow_pos _
      have hq2 : 2 ^ (53 + t) * 2 ≤ q := by
        have : 2 ^ (53 + (t + 1)) = 2 ^ (53 + t) * 2 := by
          rw [← Nat.add_assoc, Nat.pow_succ]
        omega
      have h53 : 2 ^ 53 ≤ 2 ^ (53 + t) := Nat.pow_le_pow_right (by decide) (by omega)
      cases f with
      | zero => omega
      | succ f =>
          have hlt : ¬ q < 2 ^ 53 := by omega
          rw [shiftCount, if_neg hlt]
          have := ih f (q / 2) (by omega) (by omega)
          omega

/-- A magnitude whose quotient by `d` is exact and already on the binary64
grid is left alone by rounding. -/
theorem roundRatio_exact (m t d : Nat) (hd : 0 < d) (hm : m < 2 ^ 53) :
    roundRatio (m * 2 ^ t * d) d = m * 2 ^ t := by
  unfold roundRatio
  have hq : m * 2 ^ t * d / d = m * 2 ^ t := Nat.mul_div_cancel _ hd
  simp only [hq]
  have he : shiftCount (m * 2 ^ t) (m * 2 ^ t) ≤ t := by
    apply shiftCount_le
    rw [Nat.mul_div_cancel _ (Nat.two_pow_pos _)]
    exact hm
  generalize shiftCount (m * 2 ^ t) (m * 2 ^ t) = e at he
  obtain ⟨s, rfl⟩ := Nat.exists_eq_add_of_le he
  have hD : 0 < d * 2 ^ e := Nat.mul_pos hd (Nat.two_pow_pos _)
  have hn : m * 2 ^ (e + s) * d = (m * 2 ^ s) * (d * 2 ^ e) := by
    rw [Nat.pow_add]; ring
  rw [hn, Nat.mul_div_cancel _ hD, Nat.mul_mod_left]
  have h1 : ¬ (d * 2 ^ e < 2 * 0) := by omega
  have h2 : ¬ (2 * 0 = d * 2 ^ e) := by omega
  simp only [h1, h2, decide_False, Bool.false_and, Bool.or_self, Bool.false_eq_true, if_false]
  rw [Nat.pow_add]; ring

theorem roundRatio_ofNat (m d : Nat) (hd : 0 < d) (hm : m < 2 ^ 53) :
    roundRatio (m * UNIT * d) d = m * UNIT :=
  roundRatio_exact m 1074 d hd hm

theorem roundTo_ofNat (m d : Nat) (hd : 0 < d) (hm : m < 2 ^ 53) :
    roundTo false (m * UNIT * d) d = JSNum.ofNat m := by
  unfold roundTo
  simp only [roundRatio_ofNat m d hd hm]
  have : ¬ OVERFLOW ≤ m * UNIT := by
    have h1 : m * UNIT < 2 ^ 53 * 2 ^ 1074 :=
      Nat.mul_lt_mul_of_lt_of_le hm (Nat.le_refl _) UNIT_pos
    have h2 : (2:Nat) ^ 53 * 2 ^ 1074 ≤ OVERFLOW := by
      unfold OVERFLOW
      rw [← Nat.pow_add]
      exact Nat.pow_le_pow_right (by decide) (by decide)
    omega
  simp [this, JSNum.ofNat]

/-- Rounding a quotient of at least `2^53` (the value, that is `2^1127`
units) never takes it below `2^53`. -/
theorem roundRatio_ge (n d : Nat) (h1 : 2 ^ 53 * UNIT ≤ n / d)
    (h2 : n / d / 2 ^ 1127 < 2 ^ 53) : 2 ^ 53 * UNIT ≤ roundRatio n d := by
  unfold roundRatio
  simp only []
  have he : shiftCount (n / d) (n / d) ≤ 1127 := shiftCount_le _ _ _ h2
  generalize shiftCount (n / d) (n / d) = e at he ⊢
  obtain ⟨s, hs⟩ := Nat.exists_eq_add_of_le he
  have hT : 2 ^ 53 * UNIT = 2 ^ s * 2 ^ e := by
    unfold UNIT
    rw [← Nat.pow_add, ← Nat.pow_add]
    congr 1
    omega
  have hm : 2 ^ s ≤ n / (d * 2 ^ e) := by
    rw [← Nat.div_div_eq_div_mul, Nat.le_div_iff_mul_le (Nat.two_pow_pos _), ← hT]
    exact h1
  rw [hT]
  apply Nat.mul_le_mul_right
  split_ifs <;> omega

theorem decide_cast_neg (n : Nat) : decide (((n : Nat) : Int) < 0) = false :=
  decide_eq_false (not_lt.mpr (Int.ofNat_nonneg n))

theorem ofNat_eq (n : Nat) : JSNum.ofNat n = JSNum.fin ((n * UNIT : Nat) : Int) := rfl

theorem numIsInteger_ofNat (n : Nat) : numIsInteger (JSNum.ofNat n) = true := by
  simp only [ofNat_eq, numIsInteger, decide_eq_true_eq]
  exact Int.ofNat_dvd.mpr (Nat.dvd_mul_left _ _)

theorem jsStrictEq_ofNat (a b : Nat) :
    jsStrictEq (JSNum.ofNat a) (JSNum.ofNat b) = decide (a = b) := by
  simp only [ofNat_eq, jsStrictEq]
  congr 1
  apply propext
  rw [Int.ofNat_inj, Nat.mul_left_inj (Nat.pos_iff_ne_zero.mp UNIT_pos)]

theorem jsLe_ofNat (a b : Nat) : jsLe (JSNum.ofNat a) (JSNum.ofNat b) = decide (a ≤ b) := by
  simp only [ofNat_eq, jsLe]
  congr 1
  apply propext
  rw [Int.ofNat_le]
  exact ⟨fun h => Nat.le_of_mul_le_mul_right h UNIT_pos, fun h => Nat.mul_le_mul_right _ h⟩

theorem jsLt_ofNat (a b : Nat) : jsLt (JSNum.ofNat a) (JSNum.ofNat b) = decide (a < b) := by
  simp only [ofNat_eq, jsLt]
  congr 1
  apply propext
  rw [Int.ofNat_lt]
  exact Nat.mul_lt_mul_right UNIT_pos

theorem jsMod_ofNat (a b : Nat) (hb : b ≠ 0) :
    jsMod (JSNum.ofNat a) (JSNum.ofNat b) = JSNum.ofNat (a % b) := by
  have hne : ((b * UNIT : Nat) : Int) ≠ 0 := by
    have := Nat.mul_pos (Nat.pos_of_ne_zero hb) UNIT_pos
    exact_mod_cast Nat.pos_iff_ne_zero.mp this
  simp only [ofNat_eq, jsMod, if_neg hne]
  rw [← Int.ofNat_tmod, Nat.mul_mod_mul_right]

theorem jsMul_ofNat (a b : Nat) (h : a * b < 2 ^ 53) :
    jsMul (JSNum.ofNat a) (JSNum.ofNat b) = JSNum.ofNat (a * b) := by
  have hs : xor (decide (((a * UNIT : Nat) : Int) < 0)) (decide (((b * UNIT : Nat) : Int) < 0))
      = false := by
    rw [decide_cast_neg, decide_cast_neg]; rfl
  simp only [ofNat_eq, jsMul, hs, Int.natAbs_ofNat]
  have : a * UNIT * (b * UNIT) = a * b * UNIT * UNIT := by ring
  rw [this, roundTo_ofNat _ _ UNIT_pos h]
  rfl

theorem jsAdd_ofNat (a b : Nat) (h : a + b < 2 ^ 53) :
    jsAdd (JSNum.ofNat a) (JSNum.ofNat b) = JSNum.ofNat (a + b) := by
  have hsum : ((a * UNIT : Nat) : Int) + ((b * UNIT : Nat) : Int) = (((a + b) * UNIT : Nat) : Int) := by
    push_cast; ring
  have hs : decide ((((a + b) * UNIT : Nat) : Int) < 0) = false := decide_cast_neg _
  simp only [ofNat_eq, jsAdd, hsum, hs, Int.natAbs_ofNat]
  have : (a + b) * UNIT = (a + b) * UNIT * 1 := by ring
  rw [this, roundTo_ofNat _ _ (by decide) h]
  simp [ofNat_eq]

/-- A product of at least `2^53` is, after rounding, above every integer below
`2^53`. -/
theorem jsLe_jsMul_big (a b n : Nat) (h1 : 2 ^ 53 ≤ a * b) (h2 : a * b < 2 ^ 106)
    (hn : n < 2 ^ 53) : jsLe (jsMul (JSNum.ofNat a) (JSNum.ofNat b)) (JSNum.ofNat n) = false := by
  have hs : xor (decide (((a * UNIT : Nat) : Int) < 0)) (decide (((b * UNIT : Nat) : Int) < 0))
      = false := by
    rw [decide_cast_neg, decide_cast_neg]; rfl
  simp only [ofNat_eq, jsMul, hs, Int.natAbs_ofNat]
  have hq : a * UNIT * (b * UNIT) / UNIT = a * b * UNIT := by
    have : a * UNIT * (b * UNIT) = a * b * UNIT * UNIT := by ring
    rw [this, Nat.mul_div_cancel _ UNIT_pos]
  have hge : 2 ^ 53 * UNIT ≤ roundRatio (a * UNIT * (b * UNIT)) UNIT := by
    apply roundRatio_ge
    · rw [hq]; exact Nat.mul_le_mul_right _ h1
    · rw [hq, Nat.div_lt_iff_lt_mul (Nat.two_pow_pos _)]
      calc a * b * UNIT < 2 ^ 106 * UNIT := Nat.mul_lt_mul_of_lt_of_le h2 (Nat.le_refl _) UNIT_pos
        _ = 2 ^ 53 * 2 ^ 1127 := by unfold UNIT; rw [← Nat.pow_add, ← Nat.pow_add]
  have hlt : n * UNIT < 2 ^ 53 * UNIT := Nat.mul_lt_mul_of_lt_of_le hn (Nat.le_refl _) UNIT_pos
  unfold roundTo
  by_cases ho : OVERFLOW ≤ roundRatio (a * UNIT * (b * UNIT)) UNIT
  · simp only [ho, if_true, jsLe]
  · simp only [ho, if_false, jsLe, decide_eq_false_iff_not, Bool.false_eq_true, Int.ofNat_le]
    omega

/-! ## Facts about `gcd` and the handler's plumbing -/

/-- On integer arguments the source's `gcd` computes the greatest common
divisor, and `2 * k + 1` stack frames are enough when the second argument is
below `2^k`: every two calls at least halve it. -/
theorem gcd_ofNat (k : Nat) : ∀ (a b depth : Nat), b < 2 ^ k → 2 * k + 1 ≤ depth →
    gcd depth (JSNum.ofNat a) (JSNum.ofNat b) = .ok (JSNum.ofNat (Nat.gcd a b)) := by
  induction k with
  | zero =>
      intro a b depth hb hd
      obtain ⟨d, rfl⟩ := Nat.exists_eq_add_of_le hd
      have hb0 : b = 0 := by simpa using hb
      subst hb0
      rw [show 2 * 0 + 1 + d = d + 1 by omega, gcd, jsStrictEq_ofNat]
      simp
  | succ k ih =>
      intro a b depth hb hd
      obtain ⟨d, rfl⟩ := Nat.exists_eq_add_of_le hd
      rw [show 2 * (k + 1) + 1 + d = (2 * k + 1 + d) + 1 + 1 by omega, gcd, jsStrictEq_ofNat]
      by_cases hb0 : b = 0
      · subst hb0; simp
      · rw [decide_eq_false hb0, jsMod_ofNat a b hb0]
        simp only [Bool.false_eq_true, if_false]
        have hr : a % b < b := Nat.mod_lt _ (Nat.pos_of_ne_zero hb0)
        have hgcd : Nat.gcd a b = Nat.gcd b (a % b) := by
          rw [Nat.gcd_comm a b, Nat.gcd_rec b a, Nat.gcd_comm]
        rw [gcd, jsStrictEq_ofNat]
        by_cases hr0 : a % b = 0
        · rw [hgcd, hr0]; simp
        · rw [decide_eq_false hr0, jsMod_ofNat b (a % b) hr0]
          simp only [Bool.false_eq_true, if_false]
          have hhalf : b % (a % b) < 2 ^ k := by
            have h1 : b % (a % b) < a % b := Nat.mod_lt _ (Nat.pos_of_ne_zero hr0)
            have h2 : a % b * (b / (a % b)) + b % (a % b) = b := Nat.div_add_mod b (a % b)
            have h3 : 1 ≤ b / (a % b) :=
              (Nat.one_le_div_iff (Nat.pos_of_ne_zero hr0)).mpr (Nat.le_of_lt hr)
            have h4 : a % b * 1 ≤ a % b * (b / (a % b)) := Nat.mul_le_mul_left _ h3
            have h5 : 2 ^ (k + 1) = 2 * 2 ^ k := by rw [Nat.pow_succ]; ring
            omega
          rw [ih (a % b) (b % (a % b)) _ hhalf (by omega), hgcd]
          congr 2
          rw [Nat.gcd_comm b (a % b), Nat.gcd_rec (a % b) b, Nat.gcd_comm]

theorem foldlM_gcd_ofNat (k depth : Nat) (hd : 2 * k + 1 ≤ depth) (ns : List Nat)
    (h : ∀ m ∈ ns, m < 2 ^ k) (n : Nat) :
    List.foldlM (gcd depth) (JSNum.ofNat n) (ns.map JSNum.ofNat)
      = .ok (JSNum.ofNat (ns.foldl Nat.gcd n)) := by
  induction ns generalizing n with
  | nil => rfl
  | cons m ms ih =>
      simp only [List.map_cons, List.foldlM_cons, List.foldl_cons]
      rw [gcd_ofNat k n m depth (h m (List.mem_cons_self _ _)) hd]
      exact ih (fun x hx => h x (List.mem_cons_of_mem _ hx)) _

theorem foldl_gcd_dvd_seed (ns : List Nat) (n : Nat) : ns.foldl Nat.gcd n ∣ n := by
  induction ns generalizing n with
  | nil => exact Nat.dvd_refl _
  | cons m ms ih => exact Nat.dvd_trans (ih _) (Nat.gcd_dvd_left _ _)

theorem foldl_gcd_dvd_mem (ns : List Nat) (n : Nat) : ∀ m ∈ ns, ns.foldl Nat.gcd n ∣ m := by
  induction ns generalizing n with
  | nil => intro m hm; cases hm
  | cons k ks ih =>
      intro m hm
      rcases List.mem_cons.mp hm with rfl | hm
      · exact Nat.dvd_trans (foldl_gcd_dvd_seed ks _) (Nat.gcd_dvd_right _ _)
      · exact ih _ m hm

theorem dvd_foldl_gcd (ns : List Nat) (n d : Nat) (hn : d ∣ n) (h : ∀ m ∈ ns, d ∣ m) :
    d ∣ ns.foldl Nat.gcd n := by
  induction ns generalizing n with
  | nil => exact hn
  | cons k ks ih =>
      exact ih _ (Nat.dvd_gcd hn (h k (List.mem_cons_self _ _)))
        (fun m hm => h m (List.mem_cons_of_mem _ hm))

theorem invalidElem_ofNat (m : Nat) (h : 0 < m) : invalidElem (.num (JSNum.ofNat m)) = false := by
  have : ¬ m ≤ 0 := by omega
  simp [invalidElem, numIsInteger_ofNat, jsLe_ofNat, this]

theorem any_invalidElem_ofNat (ns : List Nat) (h : ∀ m ∈ ns, 0 < m) :
    (ns.map (fun m => JSON.num (JSNum.ofNat m))).any invalidElem = false := by
  induction ns with
  | nil => rfl
  | cons k ks ih =>
      simp only [List.map_cons, List.any_cons, Bool.or_eq_false_iff]
      exact ⟨invalidElem_ofNat k (h k (List.mem_cons_self _ _)),
        ih (fun m hm => h m (List.mem_cons_of_mem _ hm))⟩

theorem numbers_ofNat (ns : List Nat) :
    numbers (ns.map (fun m => JSON.num (JSNum.ofNat m))) = ns.map JSNum.ofNat := by
  induction ns with
  | nil => rfl
  | cons k ks ih => simp [numbers, ih]

/-- A body with exactly one own key, taken from the allow-list, reaches the
branch of that key. -/
theorem bfhl_single (depth steps : Nat) (ai : JSString → AIResult) (k : JSString) (v : JSON)
    (hk : k ∈ allowedKeys) :
    bfhl depth steps ai (some (.obj [(k, v)])) = dispatch depth steps ai k v := by
  have hp : ¬ lit "__proto__" = k := by
    intro h
    rw [← h] at hk
    revert hk
    decide
  simp [bfhl, notAnObject, ownEntries, hp, hk]

theorem dispatch_hcf (depth steps : Nat) (ai : JSString → AIResult) (v : JSON) (vs : List JSON)
    (hv : (v :: vs).any invalidElem = false) :
    dispatch depth steps ai (lit "hcf") (.arr (v :: vs)) =
      match reduce (gcd depth) (numbers (v :: vs)) with
      | .ok r => some ⟨[], success (some (.num r))⟩
      | .error _ => some ⟨[], safeError 500 "Internal server error"⟩ := by
  have h1 : ¬ lit "hcf" = lit "fibonacci" := by decide
  have h2 : ¬ lit "hcf" = lit "prime" := by decide
  have h3 : ¬ lit "hcf" = lit "lcm" := by decide
  rw [dispatch, if_neg h1, if_neg h2, if_neg h3, if_pos rfl]
  simp only [hv, Bool.false_eq_true, if_false]

/-- C3. For every non-empty array of positive integers, the handler on
`{"hcf": xs}` answers 200 with the left-to-right fold of `gcd` seeded with the
first element (`2 * k + 1` stack frames are enough when the elements are below
`2^k`); that value divides every element and is divided by every common
divisor of the elements. -/
theorem hcf_is_greatest_common_divisor (n : Nat) (ns : List Nat) (hpos : ∀ m ∈ n :: ns, 0 < m)
    (k : Nat) (hk : ∀ m ∈ n :: ns, m < 2 ^ k) :
    (∀ depth, 2 * k + 1 ≤ depth → ∀ (steps : Nat) (ai : JSString → AIResult),
      bfhl depth steps ai
          (some (.obj [(lit "hcf", .arr ((n :: ns).map (fun m => JSON.num (JSNum.ofNat m))))]))
        = some ⟨[], Response.mk 200 true email
            (some (.num (JSNum.ofNat (ns.foldl Nat.gcd n))))⟩
      ∧ List.foldlM (gcd depth) (JSNum.ofNat n) (ns.map JSNum.ofNat)
        = .ok (JSNum.ofNat (ns.foldl Nat.gcd n)))
    ∧ (∀ m ∈ n :: ns, ns.foldl Nat.gcd n ∣ m)
    ∧ (∀ d, (∀ m ∈ n :: ns, d ∣ m) → d ∣ ns.foldl Nat.gcd n) := by
  refine ⟨?_, ?_, ?_⟩
  · intro depth hd steps ai
    have hfold := foldlM_gcd_ofNat k depth hd ns
      (fun m hm => hk m (List.mem_cons_of_mem _ hm)) n
    refine ⟨?_, hfold⟩
    rw [bfhl_single _ _ _ _ _ (by decide)]
    have hv := any_invalidElem_ofNat (n :: ns) hpos
    simp only [List.map_cons] at hv ⊢
    rw [dispatch_hcf _ _ _ _ _ hv]
    simp only [numbers, numbers_ofNat, reduce, hfold]
    rfl
  · intro m hm
    rcases List.mem_cons.mp hm with rfl | hm
    · exact foldl_gcd_dvd_seed ns _
    · exact foldl_gcd_dvd_mem ns n m hm
  · intro d hd
    exact dvd_foldl_gcd ns n d (hd n (List.mem_cons_self _ _))
      (fun m hm => hd m (List.mem_cons_of_mem _ hm))

/-- Witness for C3: the array `[12, 18]`, whose elements are below `2^5`,
gives 6 with 11 stack frames or more. -/
theorem hcf_is_greatest_common_divisor_witness :
    (∀ m ∈ [12, 18], 0 < m) ∧ (∀ m ∈ [12, 18], m < 2 ^ 5) ∧
    ((∀ depth, 2 * 5 + 1 ≤ depth → ∀ (steps : Nat) (ai : JSString → AIResult),
      bfhl depth steps ai
          (some (.obj [(lit "hcf", .arr ([12, 18].map (fun m => JSON.num (JSNum.ofNat m))))]))
        = some ⟨[], Response.mk 200 true email (some (.num (JSNum.ofNat 6)))⟩
      ∧ List.foldlM (gcd depth) (JSNum.ofNat 12) ([18].map JSNum.ofNat)
        = .ok (JSNum.ofNat 6))
    ∧ (∀ m ∈ [12, 18], 6 ∣ m)
    ∧ (∀ d, (∀ m ∈ [12, 18], d ∣ m) → d ∣ 6)) :=
  ⟨by decide, by decide, hcf_is_greatest_common_divisor 12 [18] (by decide) 5 (by decide)⟩

/-! ## Facts about `isPrime` -/

/-- An integer binary64 value of at least `2^53` is even. -/
theorem even_of_isDouble (n : Nat) (h : isDouble (JSNum.ofNat n) = true) (hn : 2 ^ 53 ≤ n) :
    2 ∣ n := by
  simp only [ofNat_eq, isDouble, Int.natAbs_ofNat, Bool.and_eq_true, decide_eq_true_eq] at h
  have hr := h.1
  unfold roundRatio at hr
  simp only [Nat.div_one] at hr
  have he : 1074 + 1 ≤ shiftCount (n * UNIT) (n * UNIT) := by
    apply shiftCount_ge 1074 _ _ _ (Nat.le_refl _)
    calc 2 ^ (53 + 1074) = 2 ^ 53 * UNIT := by unfold UNIT; rw [Nat.pow_add]
      _ ≤ n * UNIT := Nat.mul_le_mul_right _ hn
  generalize shiftCount (n * UNIT) (n * UNIT) = e at he hr
  obtain ⟨s, rfl⟩ := Nat.exists_eq_add_of_le he
  have hdvd : 2 * UNIT ∣ n * UNIT := by
    rw [← hr]
    refine Dvd.dvd.mul_left ?_ _
    have : 2 * UNIT = 2 ^ (1074 + 1) := by unfold UNIT; rw [Nat.pow_succ]; ring
    rw [this]
    exact Nat.pow_dvd_pow 2 (by omega)
  exact Nat.dvd_of_mul_dvd_mul_right UNIT_pos hdvd

theorem isPrimeLoop_small (n : Nat) (hn : n < 2 ^ 53) (h2n : 2 ≤ n) :
    ∀ steps i : Nat, 2 ≤ i → (i - 1) * (i - 1) ≤ n → (∀ j, 2 ≤ j → j < i → ¬ j ∣ n) →
      n + 2 ≤ steps + i →
      isPrimeLoop (JSNum.ofNat n) steps (JSNum.ofNat i) = some (decide (Nat.Prime n)) := by
  intro steps
  induction steps with
  | zero =>
      intro i hi hsq _ hfuel
      exfalso
      have h1 : n + 1 ≤ i - 1 := by omega
      have h2 : (n + 1) * (n + 1) ≤ (i - 1) * (i - 1) := Nat.mul_le_mul h1 h1
      nlinarith
  | succ steps ih =>
      intro i hi hsq hnodiv hfuel
      have hi27 : i - 1 < 2 ^ 27 := by
        by_contra hc
        have hc' : 2 ^ 27 ≤ i - 1 := by omega
        have := Nat.mul_le_mul hc' hc'
        have h54 : (2:Nat) ^ 27 * 2 ^ 27 = 2 ^ 54 := by rw [← Nat.pow_add]
        have h5354 : (2:Nat) ^ 53 < 2 ^ 54 := by decide
        omega
      have hii : i * i < 2 ^ 106 := by
        have h1 : i ≤ 2 ^ 27 := by omega
        have := Nat.mul_le_mul h1 h1
        have h54 : (2:Nat) ^ 27 * 2 ^ 27 = 2 ^ 54 := by rw [← Nat.pow_add]
        have h54106 : (2:Nat) ^ 54 < 2 ^ 106 := by decide
        omega
      rw [isPrimeLoop]
      by_cases hle : i * i ≤ n
      · rw [jsMul_ofNat i i (by omega), jsLe_ofNat, decide_eq_true hle, if_pos rfl,
          jsMod_ofNat n i (by omega), jsStrictEq_ofNat]
        by_cases hdiv : n % i = 0
        · rw [decide_eq_true hdiv, if_pos rfl]
          have hnp : ¬ Nat.Prime n := by
            intro hp
            have hd : i ∣ n := Nat.dvd_of_mod_eq_zero hdiv
            rcases (Nat.dvd_prime hp).mp hd with h1 | h1
            · omega
            · subst h1
              have : i * 2 ≤ i * i := Nat.mul_le_mul_left _ hi
              omega
          rw [decide_eq_false hnp]
        · rw [decide_eq_false hdiv]
          simp only [Bool.false_eq_true, if_false]
          have h27 : (2:Nat) ^ 27 + 1 < 2 ^ 53 := by decide
          rw [jsAdd_ofNat i 1 (by omega)]
          apply ih (i + 1) (by omega) (by simpa using hle) _ (by omega)
          intro j hj hji
          by_cases hje : j = i
          · subst hje
            intro hd
            exact hdiv (Nat.mod_eq_zero_of_dvd hd)
          · exact hnodiv j hj (by omega)
      · have hfalse : jsLe (jsMul (JSNum.ofNat i) (JSNum.ofNat i)) (JSNum.ofNat n) = false := by
          by_cases hbig : i * i < 2 ^ 53
          · rw [jsMul_ofNat i i hbig, jsLe_ofNat, decide_eq_false hle]
          · exact jsLe_jsMul_big i i n (by omega) hii hn
        rw [hfalse]
        simp only [Bool.false_eq_true, if_false]
        have hp : Nat.Prime n := by
          rw [Nat.prime_def_le_sqrt]
          refine ⟨h2n, fun m hm hms => hnodiv m hm ?_⟩
          by_contra hc
          have him : i ≤ m := by omega
          have h1 : i * i ≤ m * m := Nat.mul_le_mul him him
          have h2 : m * m ≤ n := Nat.le_sqrt.mp hms
          omega
        rw [decide_eq_true hp]

/-- On a natural number that is a binary64 value, `isPrime` returns whether
the number is prime, after at most `n + 1` evaluations of the loop condition. -/
theorem isPrime_ofNat (n : Nat) (hd : isDouble (JSNum.ofNat n) = true) (steps : Nat)
    (hs : n + 1 ≤ steps) : isPrime steps (JSNum.ofNat n) = some (decide (Nat.Prime n)) := by
  rw [isPrime, jsLt_ofNat]
  by_cases h2 : n < 2
  · rw [decide_eq_true h2, if_pos rfl]
    have hnp : ¬ Nat.Prime n := fun hp => by have := hp.two_le; omega
    rw [decide_eq_false hnp]
  · rw [decide_eq_false h2]
    simp only [Bool.false_eq_true, if_false]
    by_cases hsmall : n < 2 ^ 53
    · exact isPrimeLoop_small n hsmall (by omega) steps 2 (by omega) (by simpa using by omega)
        (fun j hj hj2 => by omega) (by omega)
    · have heven : 2 ∣ n := even_of_isDouble n hd (by omega)
      obtain ⟨s, rfl⟩ := Nat.exists_eq_add_of_le (show 1 ≤ steps by omega)
      have h4 : (2:Nat) * 2 < 2 ^ 53 := by decide
      have h4n : 2 * 2 ≤ n := by
        have : (2:Nat) * 2 ≤ 2 ^ 53 := by decide
        omega
      rw [Nat.add_comm 1 s, isPrimeLoop, jsMul_ofNat 2 2 h4, jsLe_ofNat, decide_eq_true h4n,
        if_pos rfl, jsMod_ofNat n 2 (by omega), jsStrictEq_ofNat,
        decide_eq_true (Nat.mod_eq_zero_of_dvd heven), if_pos rfl]
      have hnp : ¬ Nat.Prime n := by
        intro hp
        rcases (Nat.dvd_prime hp).mp heven with h1 | h1 <;> omega
      rw [decide_eq_false hnp]

theorem isPrime_negative (steps : Nat) (k : Int) (hk : k < 0) :
    isPrime steps (JSNum.fin k) = some false := by
  have hlt : k < ((2 * UNIT : Nat) : Int) := lt_of_lt_of_le hk (Int.ofNat_nonneg _)
  rw [isPrime, ofNat_eq, jsLt, decide_eq_true hlt, if_pos rfl]

/-- An integer-valued number is `ofNat n` or negative. -/
theorem integer_cases (x : JSNum) (h : numIsInteger x = true) :
    (∃ n : Nat, x = JSNum.ofNat n) ∨ (∃ k : Int, k < 0 ∧ x = JSNum.fin k) := by
  cases x with
  | fin k =>
      simp only [numIsInteger, decide_eq_true_eq] at h
      by_cases hk : k < 0
      · exact Or.inr ⟨k, hk, rfl⟩
      · left
        obtain ⟨c, hc⟩ := h
        have hU : (0:Int) < (UNIT : Int) := by exact_mod_cast UNIT_pos
        have hc0 : 0 ≤ c := by
          by_contra hneg
          have : (UNIT : Int) * c < 0 := Int.mul_neg_of_pos_of_neg hU (by omega)
          omega
        refine ⟨c.toNat, ?_⟩
        rw [ofNat_eq, hc]
        congr 1
        push_cast
        rw [Int.toNat_of_nonneg hc0, Int.mul_comm]
  | inf s => simp [numIsInteger] at h
  | nan => simp [numIsInteger] at h

theorem ofNat_injective (a b : Nat) (h : JSNum.ofNat a = JSNum.ofNat b) : a = b := by
  simp only [ofNat_eq, JSNum.fin.injEq, Int.ofNat_inj] at h
  exact Nat.eq_of_mul_eq_mul_right UNIT_pos h

/-- With enough iterations, the filter callback keeps exactly the prime numbers. -/
theorem integerAndPrime_iff (x : JSNum) (hd : isDouble x = true) :
    ∃ bound, ∀ steps, bound ≤ steps →
      (numIsInteger x = true → isPrime steps x ≠ none) ∧
      (integerAndPrime steps (.num x) = true ↔ ∃ p, Nat.Prime p ∧ x = JSNum.ofNat p) := by
  by_cases hint : numIsInteger x = true
  · rcases integer_cases x hint with ⟨n, rfl⟩ | ⟨k, hk, rfl⟩
    · refine ⟨n + 1, fun steps hs => ?_⟩
      have he := isPrime_ofNat n hd steps hs
      refine ⟨fun _ => by rw [he]; simp, ?_⟩
      simp only [integerAndPrime, hint, he, Bool.true_and, beq_iff_eq, Option.some.injEq,
        decide_eq_true_eq]
      constructor
      · intro hp; exact ⟨n, hp, rfl⟩
      · rintro ⟨p, hp, hx⟩
        rw [ofNat_injective n p hx]; exact hp
    · refine ⟨0, fun steps _ => ?_⟩
      have he := isPrime_negative steps k hk
      refine ⟨fun _ => by rw [he]; simp, ?_⟩
      simp only [integerAndPrime, hint, he, Bool.true_and, beq_iff_eq, Option.some.injEq,
        Bool.false_eq_true, false_iff, not_exists, not_and]
      intro p _ hx
      simp only [ofNat_eq, JSNum.fin.injEq] at hx
      have := Int.ofNat_nonneg (p * UNIT)
      omega
  · refine ⟨0, fun steps _ => ⟨fun h => absurd h hint, ?_⟩⟩
    constructor
    · intro h
      simp only [integerAndPrime, Bool.and_eq_true] at h
      exact absurd h.1 hint
    · rintro ⟨p, _, hx⟩
      exact absurd (by rw [hx]; exact numIsInteger_ofNat p) hint

theorem keepPrime_eq (steps : Nat) (v : JSON) (h : keepPrime steps v ≠ none) :
    keepPrime steps v = some (integerAndPrime steps v) := by
  cases v with
  | num x =>
      simp only [keepPrime, integerAndPrime] at h ⊢
      by_cases hint : numIsInteger x = true
      · simp only [hint, if_true, Bool.true_and] at h ⊢
        cases hp : isPrime steps x with
        | none => exact absurd hp h
        | some b => cases b <;> rfl
      · simp [hint]
  | _ => rfl

theorem primeFilter_eq (steps : Nat) (xs : List JSON) (h : ∀ v ∈ xs, keepPrime steps v ≠ none) :
    primeFilter steps xs = some (xs.filter (integerAndPrime steps)) := by
  induction xs with
  | nil => rfl
  | cons v vs ih =>
      rw [primeFilter, keepPrime_eq steps v (h v (List.mem_cons_self _ _)),
        ih (fun w hw => h w (List.mem_cons_of_mem _ hw))]
      simp only [List.filter_cons]

theorem keepPrime_ne_none_of (steps : Nat) (v : JSON)
    (h : ∀ x, v = .num x → numIsInteger x = true → isPrime steps x ≠ none) :
    keepPrime steps v ≠ none := by
  cases v with
  | num x =>
      simp only [keepPrime]
      by_cases hint : numIsInteger x = true
      · simp only [hint, if_true]; exact h x rfl hint
      · simp [hint]
  | _ => simp [keepPrime]

/-- There is one iteration budget that is enough for every element of a list
of binary64 values. -/
theorem exists_budget (xs : List JSON) (hd : ∀ x, JSON.num x ∈ xs → isDouble x = true) :
    ∃ bound, ∀ steps, bound ≤ steps → ∀ x, JSON.num x ∈ xs →
      (numIsInteger x = true → isPrime steps x ≠ none) ∧
      (integerAndPrime steps (.num x) = true ↔ ∃ p, Nat.Prime p ∧ x = JSNum.ofNat p) := by
  induction xs with
  | nil => exact ⟨0, fun _ _ x hx => by cases hx⟩
  | cons v vs ih =>
      obtain ⟨b1, h1⟩ := ih (fun x hx => hd x (List.mem_cons_of_mem _ hx))
      cases v with
      | num y =>
          obtain ⟨b2, h2⟩ := integerAndPrime_iff y (hd y (List.mem_cons_self _ _))
          refine ⟨max b1 b2, fun steps hs x hx => ?_⟩
          rcases List.mem_cons.mp hx with hxy | hx
          · cases hxy
            exact h2 steps (le_trans (le_max_right _ _) hs)
          · exact h1 steps (le_trans (le_max_left _ _) hs) x hx
      | _ =>
          refine ⟨b1, fun steps hs x hx => ?_⟩
          rcases List.mem_cons.mp hx with hxy | hx
          · cases hxy
          · exact h1 steps hs x hx

theorem dispatch_prime (depth steps : Nat) (ai : JSString → AIResult) (v : JSON)
    (vs : List JSON) :
    dispatch depth steps ai (lit "prime") (.arr (v :: vs)) =
      match primeFilter steps (v :: vs) with
      | some result => some ⟨[], success (some (.arr result))⟩
      | none => none := by
  have h1 : ¬ lit "prime" = lit "fibonacci" := by decide
  rw [dispatch, if_neg h1, if_pos rfl]

/-- C5. For every non-empty array of JSON values (its numbers being binary64
values), the handler on `{"prime": xs}` answers 200, once the loop of
`isPrime` has enough iterations, with the elements of `xs` that are integers
on which `isPrime` returns `true`, in their order and with their multiplicity;
`isPrime` finishes on every integer element, and the elements kept are exactly
the prime numbers. -/
theorem prime_filter_result (v : JSON) (vs : List JSON)
    (hd : ∀ x, JSON.num x ∈ v :: vs → isDouble x = true) :
    ∃ bound, ∀ steps, bound ≤ steps → ∀ (depth : Nat) (ai : JSString → AIResult),
      bfhl depth steps ai (some (.obj [(lit "prime", .arr (v :: vs))]))
        = some ⟨[], Response.mk 200 true email
            (some (.arr ((v :: vs).filter (integerAndPrime steps))))⟩
      ∧ ((v :: vs).filter (integerAndPrime steps)).Sublist (v :: vs)
      ∧ (∀ x, JSON.num x ∈ v :: vs → numIsInteger x = true → isPrime steps x ≠ none)
      ∧ (∀ x, JSON.num x ∈ v :: vs →
          (integerAndPrime steps (.num x) = true ↔ ∃ p, Nat.Prime p ∧ x = JSNum.ofNat p)) := by
  obtain ⟨bound, hb⟩ := exists_budget (v :: vs) hd
  refine ⟨bound, fun steps hs depth ai => ⟨?_, List.filter_sublist _, ?_, ?_⟩⟩
  · rw [bfhl_single _ _ _ _ _ (by decide), dispatch_prime, primeFilter_eq]
    · rfl
    · intro w hw
      apply keepPrime_ne_none_of
      intro x hx hint
      subst hx
      exact (hb steps hs x hw).1 hint
  · intro x hx
    exact (hb steps hs x hx).1
  · intro x hx
    exact (hb steps hs x hx).2

/-- Witness for C5: the array `[2, 3, 4, 5, 9]`; with six iterations the
response is `[2, 3, 5]`. -/
theorem prime_filter_result_witness :
    (∀ x, JSON.num x ∈ [JSON.num (JSNum.ofNat 2), .num (JSNum.ofNat 3), .num (JSNum.ofNat 4),
        .num (JSNum.ofNat 5), .num (JSNum.ofNat 9)] → isDouble x = true)
    ∧ (∃ bound, ∀ steps, bound ≤ steps → ∀ (depth : Nat) (ai : JSString → AIResult),
      bfhl depth steps ai (some (.obj [(lit "prime", .arr [.num (JSNum.ofNat 2),
          .num (JSNum.ofNat 3), .num (JSNum.ofNat 4), .num (JSNum.ofNat 5), .num (JSNum.ofNat 9)])]))
        = some ⟨[], Response.mk 200 true email (some (.arr ([JSON.num (JSNum.ofNat 2), .num (JSNum.ofNat 3),
            .num (JSNum.ofNat 4), .num (JSNum.ofNat 5), .num (JSNum.ofNat 9)].filter
              (integerAndPrime steps))))⟩
      ∧ ([JSON.num (JSNum.ofNat 2), .num (JSNum.ofNat 3), .num (JSNum.ofNat 4),
            .num (JSNum.ofNat 5), .num (JSNum.ofNat 9)].filter (integerAndPrime steps)).Sublist
          [.num (JSNum.ofNat 2), .num (JSNum.ofNat 3), .num (JSNum.ofNat 4),
            .num (JSNum.ofNat 5), .num (JSNum.ofNat 9)]
      ∧ (∀ x, JSON.num x ∈ [JSON.num (JSNum.ofNat 2), .num (JSNum.ofNat 3), .num (JSNum.ofNat 4),
          .num (JSNum.ofNat 5), .num (JSNum.ofNat 9)] → numIsInteger x = true →
            isPrime steps x ≠ none)
      ∧ (∀ x, JSON.num x ∈ [JSON.num (JSNum.ofNat 2), .num (JSNum.ofNat 3), .num (JSNum.ofNat 4),
          .num (JSNum.ofNat 5), .num (JSNum.ofNat 9)] →
          (integerAndPrime steps (.num x) = true ↔ ∃ p, Nat.Prime p ∧ x = JSNum.ofNat p)))
    ∧ [JSON.num (JSNum.ofNat 2), .num (JSNum.ofNat 3), .num (JSNum.ofNat 4),
          .num (JSNum.ofNat 5), .num (JSNum.ofNat 9)].filter (integerAndPrime 6)
        = [.num (JSNum.ofNat 2), .num (JSNum.ofNat 3), .num (JSNum.ofNat 5)] := by
  have hd : ∀ x, JSON.num x ∈ [JSON.num (JSNum.ofNat 2), .num (JSNum.ofNat 3),
      .num (JSNum.ofNat 4), .num (JSNum.ofNat 5), .num (JSNum.ofNat 9)] → isDouble x = true := by
    intro x hx
    simp only [List.mem_cons, JSON.num.injEq, List.mem_singleton, List.not_mem_nil, or_false] at hx
    rcases hx with rfl | rfl | rfl | rfl | rfl <;> decide
  exact ⟨hd, prime_filter_result _ _ hd, rfl⟩

/-! ## Validation of the request shape -/

/-- The guard of the `fibonacci` branch lets through exactly the integers from
0 to 1000. -/
theorem fibonacci_guard (x : JSNum) :
    (!numIsInteger x || jsLt x (JSNum.ofNat 0) || jsGt x (JSNum.ofNat 1000)) = false
      ↔ ∃ n, n ≤ 1000 ∧ x = JSNum.ofNat n := by
  constructor
  · intro h
    simp only [Bool.or_eq_false_iff, Bool.not_eq_false'] at h
    obtain ⟨⟨hint, hneg⟩, hbig⟩ := h
    rcases integer_cases x hint with ⟨n, rfl⟩ | ⟨k, hk, rfl⟩
    · refine ⟨n, ?_, rfl⟩
      rw [jsGt, jsLt_ofNat, decide_eq_false_iff_not] at hbig
      omega
    · exfalso
      have hlt : k < ((0 * UNIT : Nat) : Int) := by simpa using hk
      rw [ofNat_eq, jsLt, decide_eq_true hlt] at hneg
      exact Bool.noConfusion hneg
  · rintro ⟨n, hn, rfl⟩
    have h1 : ¬ n < 0 := by omega
    have h2 : ¬ 1000 < n := by omega
    rw [numIsInteger_ofNat, jsGt, jsLt_ofNat, jsLt_ofNat, decide_eq_false h1, decide_eq_false h2]
    rfl

theorem dispatch_fibonacci (depth steps : Nat) (ai : JSString → AIResult) (v : JSON) :
    dispatch depth steps ai (lit "fibonacci") v =
      match v with
      | .num x =>
          if !numIsInteger x || jsLt x (JSNum.ofNat 0) || jsGt x (JSNum.ofNat 1000) then
            some ⟨[], safeError 400 "Invalid fibonacci input"⟩
          else
            some ⟨[], success (some (.arr
              ((fibLoop (loopCount x) (JSNum.ofNat 0) (JSNum.ofNat 1) []).map JSON.num)))⟩
      | _ => some ⟨[], safeError 400 "Invalid fibonacci input"⟩ := by
  unfold dispatch
  rw [if_pos (rfl : lit "fibonacci" = lit "fibonacci")]

/-- C6. The handler on `{"fibonacci": v}` answers 200 exactly when `v` is an
integer from 0 to 1000, and answers 400 with the message
"Invalid fibonacci input" for every other value. -/
theorem fibonacci_validation (depth steps : Nat) (ai : JSString → AIResult) (v : JSON) :
    ((∃ n, n ≤ 1000 ∧ v = .num (JSNum.ofNat n)) →
      ∃ xs, bfhl depth steps ai (some (.obj [(lit "fibonacci", v)]))
        = some ⟨[], Response.mk 200 true email (some (.arr xs))⟩)
    ∧ ((¬ ∃ n, n ≤ 1000 ∧ v = .num (JSNum.ofNat n)) →
      bfhl depth steps ai (some (.obj [(lit "fibonacci", v)]))
        = some ⟨[], Response.mk 400 false email (some (.str (lit "Invalid fibonacci input")))⟩)
    ∧ (∃ out, bfhl depth steps ai (some (.obj [(lit "fibonacci", v)])) = some out
        ∧ (out.response.status = 200 ↔ ∃ n, n ≤ 1000 ∧ v = .num (JSNum.ofNat n))) := by
  rw [bfhl_single _ _ _ _ _ (by decide), dispatch_fibonacci]
  by_cases hv : ∃ n, n ≤ 1000 ∧ v = .num (JSNum.ofNat n)
  · have hv' := hv
    obtain ⟨n, hn, rfl⟩ := hv'
    have hg := (fibonacci_guard (JSNum.ofNat n)).mpr ⟨n, hn, rfl⟩
    simp only [hg, Bool.false_eq_true, if_false]
    exact ⟨fun _ => ⟨_, rfl⟩, fun h => absurd hv h, _, rfl, fun _ => hv, fun _ => rfl⟩
  · have herr : (match v with
        | .num x =>
            if !numIsInteger x || jsLt x (JSNum.ofNat 0) || jsGt x (JSNum.ofNat 1000) then
              some (Outcome.mk [] (safeError 400 "Invalid fibonacci input"))
            else
              some ⟨[], success (some (.arr
                ((fibLoop (loopCount x) (JSNum.ofNat 0) (JSNum.ofNat 1) []).map JSON.num)))⟩
        | _ => some ⟨[], safeError 400 "Invalid fibonacci input"⟩)
        = some ⟨[], safeError 400 "Invalid fibonacci input"⟩ := by
      cases v with
      | num x =>
          have hg : (!numIsInteger x || jsLt x (JSNum.ofNat 0) || jsGt x (JSNum.ofNat 1000))
              = true := by
            by_contra hc
            rw [Bool.not_eq_true, fibonacci_guard] at hc
            obtain ⟨n, hn, rfl⟩ := hc
            exact hv ⟨n, hn, rfl⟩
          simp only [hg, if_true]
      | _ => rfl
    rw [herr]
    exact ⟨fun h => absurd h hv, fun _ => rfl, _, rfl, fun h => absurd h (by decide),
      fun h => absurd h hv⟩

/-- Witness for C6: 5 is accepted, -1 and 1001 are rejected. -/
theorem fibonacci_validation_witness :
    (∃ xs, bfhl 0 0 (fun _ => AIResult.failure)
        (some (.obj [(lit "fibonacci", .num (JSNum.ofNat 5))]))
        = some ⟨[], Response.mk 200 true email (some (.arr xs))⟩)
    ∧ bfhl 0 0 (fun _ => AIResult.failure) (some (.obj [(lit "fibonacci", .num (JSNum.ofInt (-1)))]))
        = some ⟨[], Response.mk 400 false email (some (.str (lit "Invalid fibonacci input")))⟩
    ∧ bfhl 0 0 (fun _ => AIResult.failure) (some (.obj [(lit "fibonacci", .num (JSNum.ofNat 1001))]))
        = some ⟨[], Response.mk 400 false email (some (.str (lit "Invalid fibonacci input")))⟩ := by
  refine ⟨(fibonacci_validation 0 0 _ _).1 ⟨5, by decide, rfl⟩,
    (fibonacci_validation 0 0 _ _).2.1 ?_, (fibonacci_validation 0 0 _ _).2.1 ?_⟩
  · rintro ⟨n, _, h⟩
    simp only [JSON.num.injEq, JSNum.ofInt, ofNat_eq, JSNum.fin.injEq] at h
    have h0 := Int.ofNat_nonneg (n * UNIT)
    have hU : (0:Int) < (UNIT : Int) := by exact_mod_cast UNIT_pos
    have : (-1 : Int) * (UNIT : Int) < 0 := by omega
    omega
  · rintro ⟨n, hn, h⟩
    simp only [JSON.num.injEq] at h
    have := ofNat_injective _ _ h
    omega

/-- C7. An object body without an own key `__proto__` whose number of own keys
is not 1 is answered 400 "Exactly one key is required", whatever the keys and
values are. -/
theorem key_count_required (depth steps : Nat) (ai : JSString → AIResult)
    (kvs : List (JSString × JSON)) (hproto : lit "__proto__" ∉ kvs.map Prod.fst)
    (hlen : kvs.length ≠ 1) :
    bfhl depth steps ai (some (.obj kvs))
      = some ⟨[], Response.mk 400 false email (some (.str (lit "Exactly one key is required")))⟩ := by
  have hlen' : ¬ kvs.length = 1 := hlen
  simp only [bfhl, notAnObject, ownEntries, hproto, List.length_map, safeError,
    Bool.false_eq_true, if_false, ne_eq, hlen', not_false_eq_true, if_true]

/-- Witness for C7: the empty object and an object with the two allowed keys
`lcm` and `hcf`. -/
theorem key_count_required_witness :
    bfhl 0 0 (fun _ => AIResult.failure) (some (.obj []))
      = some ⟨[], Response.mk 400 false email (some (.str (lit "Exactly one key is required")))⟩
    ∧ bfhl 0 0 (fun _ => AIResult.failure)
        (some (.obj [(lit "lcm", .arr [.num (JSNum.ofNat 4)]), (lit "hcf", .arr [.num (JSNum.ofNat 4)])]))
      = some ⟨[], Response.mk 400 false email (some (.str (lit "Exactly one key is required")))⟩ :=
  ⟨key_count_required 0 0 _ [] (by decide) (by decide),
   key_count_required 0 0 _ _ (by decide) (by decide)⟩

/-- C8. A body whose single own key is neither `__proto__` nor one of the five
allowed keys is answered 400 "Invalid key", whatever the value is; and no body
whose single key is outside the allow-list is answered 200. -/
theorem invalid_key_rejected (depth steps : Nat) (ai : JSString → AIResult) (k : JSString)
    (v : JSON) (hk : k ∉ allowedKeys) :
    (k ≠ lit "__proto__" →
      bfhl depth steps ai (some (.obj [(k, v)]))
        = some ⟨[], Response.mk 400 false email (some (.str (lit "Invalid key")))⟩)
    ∧ (∃ msg, bfhl depth steps ai (some (.obj [(k, v)]))
        = some ⟨[], Response.mk 400 false email (some (.str msg))⟩) := by
  by_cases hp : lit "__proto__" = k
  · refine ⟨fun h => absurd hp.symm h, lit "Invalid input", ?_⟩
    simp [bfhl, notAnObject, ownEntries, hp, safeError]
  · have h1 : bfhl depth steps ai (some (.obj [(k, v)]))
        = some ⟨[], Response.mk 400 false email (some (.str (lit "Invalid key")))⟩ := by
      simp [bfhl, notAnObject, ownEntries, hp, hk, safeError]
    exact ⟨fun _ => h1, _, h1⟩

/-- Witness for C8: the keys `Fibonacci` (wrong case) and `sum`. -/
theorem invalid_key_rejected_witness :
    bfhl 0 0 (fun _ => AIResult.failure) (some (.obj [(lit "Fibonacci", .num (JSNum.ofNat 5))]))
      = some ⟨[], Response.mk 400 false email (some (.str (lit "Invalid key")))⟩
    ∧ bfhl 0 0 (fun _ => AIResult.failure) (some (.obj [(lit "sum", .null)]))
      = some ⟨[], Response.mk 400 false email (some (.str (lit "Invalid key")))⟩ :=
  ⟨(invalid_key_rejected 0 0 _ (lit "Fibonacci") _ (by decide)).1 (by decide),
   (invalid_key_rejected 0 0 _ (lit "sum") _ (by decide)).1 (by decide)⟩

/-! ## The `AI` branch -/

theorem dispatch_AI (depth steps : Nat) (ai : JSString → AIResult) (s : JSString) :
    dispatch depth steps ai (lit "AI") (.str s) =
      if (trim s).length = 0 then some ⟨[], safeError 400 "Invalid AI input"⟩
      else some ⟨[s.take 500], success (some (.str (aiResult (ai (s.take 500)))))⟩ := by
  have h1 : ¬ lit "AI" = lit "fibonacci" := by decide
  have h2 : ¬ lit "AI" = lit "prime" := by decide
  have h3 : ¬ lit "AI" = lit "lcm" := by decide
  have h4 : ¬ lit "AI" = lit "hcf" := by decide
  rw [dispatch, if_neg h1, if_neg h2, if_neg h3, if_neg h4,
    if_pos (rfl : lit "AI" = lit "AI")]

/-- C10. For a body `{"AI": s}` whose string is not empty after trimming, the
handler answers 200 with `is_success` true and a string as data, whatever the
external call does; when the call fails the data is "Unavailable". -/
theorem ai_failure_unavailable (depth steps : Nat) (ai : JSString → AIResult) (s : JSString)
    (hs : (trim s).length ≠ 0) :
    ∃ d, bfhl depth steps ai (some (.obj [(lit "AI", .str s)]))
        = some ⟨[s.take 500], Response.mk 200 true email (some (.str d))⟩
      ∧ (ai (s.take 500) = AIResult.failure → d = lit "Unavailable") := by
  refine ⟨aiResult (ai (s.take 500)), ?_, ?_⟩
  · rw [bfhl_single _ _ _ _ _ (by decide), dispatch_AI, if_neg hs]
    rfl
  · intro h
    rw [h]
    rfl

/-- Witness for C10: the prompt `hi` with a collaborator that always fails. -/
theorem ai_failure_unavailable_witness :
    (trim (lit "hi")).length ≠ 0
    ∧ bfhl 0 0 (fun _ => AIResult.failure) (some (.obj [(lit "AI", .str (lit "hi"))]))
        = some ⟨[lit "hi"], Response.mk 200 true email (some (.str (lit "Unavailable")))⟩ := by
  obtain ⟨d, h1, h2⟩ := ai_failure_unavailable 0 0 (fun _ => AIResult.failure) (lit "hi")
    (by decide)
  rw [h2 rfl] at h1
  exact ⟨by decide, h1⟩

/-! ## Where binary64 arithmetic departs from integer arithmetic -/

/-- While the Fibonacci numbers stay below `2^53` the loop computes them
exactly. -/
theorem fibLoop_exact (count : Nat) : ∀ (i rest : Nat) (result : List JSNum),
    Nat.fib (i + count + 1) < 2 ^ 53 →
    fibLoop (count + rest) (JSNum.ofNat (Nat.fib i)) (JSNum.ofNat (Nat.fib (i + 1))) result
      = fibLoop rest (JSNum.ofNat (Nat.fib (i + count))) (JSNum.ofNat (Nat.fib (i + count + 1)))
          (result ++ (List.range' i count).map (fun j => JSNum.ofNat (Nat.fib j))) := by
  induction count with
  | zero => intro i rest result _; simp
  | succ count ih =>
      intro i rest result h
      have hmono : Nat.fib (i + 1 + 1) ≤ Nat.fib (i + (count + 1) + 1) := Nat.fib_mono (by omega)
      have hadd : Nat.fib i + Nat.fib (i + 1) = Nat.fib (i + 1 + 1) := (Nat.fib_add_two).symm
      have hstep : count + 1 + rest = (count + rest) + 1 := by omega
      rw [hstep, fibLoop, jsAdd_ofNat _ _ (by rw [hadd]; omega), hadd,
        ih (i + 1) rest _ (by rw [show i + 1 + count + 1 = i + (count + 1) + 1 by omega]; exact h)]
      simp only [List.range'_succ, List.map_cons, List.append_assoc, List.singleton_append]
      rw [show i + 1 + count = i + (count + 1) by omega]

theorem fibLoop_three (a b : JSNum) (result : List JSNum) :
    fibLoop 3 a b result = result ++ [a, b, jsAdd a b] := by
  simp [fibLoop]

/-- C1 (evaluation at the failing input). On `{"fibonacci": 80}` the handler
answers 200 with 80 numbers, the last three of which are 5527939700884757,
8944394323791464 and 14472334024676220: the last is not the sum
14472334024676221 of the two before it, which is the Fibonacci number of
index 79. -/
theorem fibonacci_80_last_rounded (depth steps : Nat) (ai : JSString → AIResult) :
    ∃ init : List JSNum, init.length = 77
      ∧ bfhl depth steps ai (some (.obj [(lit "fibonacci", .num (JSNum.ofNat 80))]))
        = some ⟨[], Response.mk 200 true email (some (.arr ((init ++
            [JSNum.ofNat 5527939700884757, JSNum.ofNat 8944394323791464,
             JSNum.ofNat 14472334024676220]).map JSON.num)))⟩
      ∧ Nat.fib 79 = 14472334024676221
      ∧ 5527939700884757 + 8944394323791464 = 14472334024676221 := by
  refine ⟨(List.range' 0 77).map (fun j => JSNum.ofNat (Nat.fib j)), by simp, ?_,
    by norm_num [Nat.fib_add_two], by decide⟩
  rw [bfhl_single _ _ _ _ _ (by decide), dispatch_fibonacci]
  have hg := (fibonacci_guard (JSNum.ofNat 80)).mpr ⟨80, by decide, rfl⟩
  simp only [hg, Bool.false_eq_true, if_false]
  have hc : loopCount (JSNum.ofNat 80) = 77 + 3 := by decide
  have h78 : Nat.fib (0 + 77 + 1) < 2 ^ 53 := by norm_num [Nat.fib_add_two]
  have hloop := fibLoop_exact 77 0 3 [] h78
  have hf77 : Nat.fib (0 + 77) = 5527939700884757 := by norm_num [Nat.fib_add_two]
  have hf78 : Nat.fib (0 + 77 + 1) = 8944394323791464 := by norm_num [Nat.fib_add_two]
  have hsum : jsAdd (JSNum.ofNat 5527939700884757) (JSNum.ofNat 8944394323791464)
      = JSNum.ofNat 14472334024676220 := by decide
  rw [hf77, hf78, fibLoop_three, hsum] at hloop
  rw [hc, show JSNum.ofNat 0 = JSNum.ofNat (Nat.fib 0) from rfl,
    show JSNum.ofNat 1 = JSNum.ofNat (Nat.fib (0 + 1)) from rfl, hloop]
  rfl

theorem gcd_self (depth n : Nat) (hn : n ≠ 0) :
    gcd (depth + 2) (JSNum.ofNat n) (JSNum.ofNat n) = .ok (JSNum.ofNat n) := by
  rw [gcd, jsStrictEq_ofNat, decide_eq_false hn, jsMod_ofNat n n hn, Nat.mod_self]
  simp only [Bool.false_eq_true, if_false]
  rw [gcd, jsStrictEq_ofNat]
  simp

/-- C2 (evaluation at the failing input). `gcd(94906267, 94906267)` is
94906267, but `lcm(94906267, 94906267)` is the binary64 value
`6369051764850687 * 2^-26`, which lies strictly between 94906266 and 94906267
and is not an integer, whereas the least common multiple is 94906267. -/
theorem lcm_94906267_not_integer (depth : Nat) :
    isDouble (JSNum.ofNat 94906267) = true
    ∧ gcd (depth + 2) (JSNum.ofNat 94906267) (JSNum.ofNat 94906267) = .ok (JSNum.ofNat 94906267)
    ∧ lcm (depth + 2) (JSNum.ofNat 94906267) (JSNum.ofNat 94906267)
        = .ok (JSNum.fin ((6369051764850687 * 2 ^ 1048 : Nat) : Int))
    ∧ numIsInteger (JSNum.fin ((6369051764850687 * 2 ^ 1048 : Nat) : Int)) = false
    ∧ jsLt (JSNum.ofNat 94906266) (JSNum.fin ((6369051764850687 * 2 ^ 1048 : Nat) : Int)) = true
    ∧ jsLt (JSNum.fin ((6369051764850687 * 2 ^ 1048 : Nat) : Int)) (JSNum.ofNat 94906267) = true
    ∧ Nat.lcm 94906267 94906267 = 94906267 := by
  have hg := gcd_self depth 94906267 (by decide)
  refine ⟨by decide, hg, ?_, by decide, by decide, by decide, Nat.lcm_self _⟩
  have hq : jsDiv (jsMul (JSNum.ofNat 94906267) (JSNum.ofNat 94906267)) (JSNum.ofNat 94906267)
      = JSNum.fin ((6369051764850687 * 2 ^ 1048 : Nat) : Int) := by decide
  rw [lcm, hg]
  simp only [hq]

theorem dispatch_lcm (depth steps : Nat) (ai : JSString → AIResult) (v : JSON) (vs : List JSON)
    (hv : (v :: vs).any invalidElem = false) :
    dispatch depth steps ai (lit "lcm") (.arr (v :: vs)) =
      match reduce (lcm depth) (numbers (v :: vs)) with
      | .ok r => some ⟨[], success (some (.num r))⟩
      | .error _ => some ⟨[], safeError 500 "Internal server error"⟩ := by
  have h1 : ¬ lit "lcm" = lit "fibonacci" := by decide
  have h2 : ¬ lit "lcm" = lit "prime" := by decide
  rw [dispatch, if_neg h1, if_neg h2, if_pos (rfl : lit "lcm" = lit "lcm")]
  simp only [hv, Bool.false_eq_true, if_false]

/-- C4 (evaluation at the failing input). On `{"lcm": [94906267, 94906267]}`
the handler answers 200 with the non-integer `6369051764850687 * 2^-26`
(printed 94906266.99999999), not with the least common multiple 94906267. -/
theorem lcm_handler_94906267_not_integer (depth steps : Nat) (ai : JSString → AIResult) :
    bfhl (depth + 2) steps ai (some (.obj [(lit "lcm",
        .arr [.num (JSNum.ofNat 94906267), .num (JSNum.ofNat 94906267)])]))
      = some ⟨[], Response.mk 200 true email
          (some (.num (JSNum.fin ((6369051764850687 * 2 ^ 1048 : Nat) : Int))))⟩
    ∧ numIsInteger (JSNum.fin ((6369051764850687 * 2 ^ 1048 : Nat) : Int)) = false
    ∧ JSNum.fin ((6369051764850687 * 2 ^ 1048 : Nat) : Int) ≠ JSNum.ofNat (Nat.lcm 94906267 94906267) := by
  refine ⟨?_, by decide, by rw [Nat.lcm_self]; decide⟩
  have hg := gcd_self depth 94906267 (by decide)
  have hq : jsDiv (jsMul (JSNum.ofNat 94906267) (JSNum.ofNat 94906267)) (JSNum.ofNat 94906267)
      = JSNum.fin ((6369051764850687 * 2 ^ 1048 : Nat) : Int) := by decide
  have hv := any_invalidElem_ofNat [94906267, 94906267] (by decide)
  simp only [List.map_cons, List.map_nil] at hv
  rw [bfhl_single _ _ _ _ _ (by decide), dispatch_lcm _ _ _ _ _ hv]
  simp only [numbers, reduce, List.foldlM_cons, List.foldlM_nil, lcm, hg, hq]
  rfl

/-- Once its second argument is NaN the recursion of `gcd` never reaches its
base case: it exhausts every stack. -/
theorem gcd_nan (depth : Nat) : ∀ a : JSNum, gcd depth a JSNum.nan = .error .rangeError := by
  induction depth with
  | zero => intro a; rfl
  | succ depth ih =>
      intro a
      rw [gcd]
      have hm : jsMod a JSNum.nan = JSNum.nan := by cases a <;> rfl
      have hz : jsStrictEq JSNum.nan (JSNum.ofNat 0) = false := rfl
      rw [hz, hm]
      simp only [Bool.false_eq_true, if_false]
      exact ih _

/-- C9 (evaluation at the failing input). The array `[1e200, 1e200, 1]` passes
the validation of the `lcm` branch (every element is a positive integer), yet
the handler answers 500 "Internal server error" whatever the stack depth: the
product overflows to `Infinity`, `Infinity % 1` is NaN, and `gcd` then recurses
without end. -/
theorem lcm_handler_overflow_500 (depth steps : Nat) (ai : JSString → AIResult) :
    isDouble (JSNum.ofNat 99999999999999996973312221251036165947450327545502362648241750950346848435554075534196338404706251868027512415973882408182135734368278484639385041047239877871023591066789981811181813306167128854888448) = true
    ∧ [JSON.num (JSNum.ofNat 99999999999999996973312221251036165947450327545502362648241750950346848435554075534196338404706251868027512415973882408182135734368278484639385041047239877871023591066789981811181813306167128854888448),
        JSON.num (JSNum.ofNat 99999999999999996973312221251036165947450327545502362648241750950346848435554075534196338404706251868027512415973882408182135734368278484639385041047239877871023591066789981811181813306167128854888448),
        JSON.num (JSNum.ofNat 1)].any invalidElem = false
    ∧ bfhl depth steps ai (some (.obj [(lit "lcm", .arr
        [.num (JSNum.ofNat 99999999999999996973312221251036165947450327545502362648241750950346848435554075534196338404706251868027512415973882408182135734368278484639385041047239877871023591066789981811181813306167128854888448),
         .num (JSNum.ofNat 99999999999999996973312221251036165947450327545502362648241750950346848435554075534196338404706251868027512415973882408182135734368278484639385041047239877871023591066789981811181813306167128854888448),
         .num (JSNum.ofNat 1)])]))
      = some ⟨[], Response.mk 500 false email (some (.str (lit "Internal server error")))⟩ := by
  have hv := any_invalidElem_ofNat [99999999999999996973312221251036165947450327545502362648241750950346848435554075534196338404706251868027512415973882408182135734368278484639385041047239877871023591066789981811181813306167128854888448, 99999999999999996973312221251036165947450327545502362648241750950346848435554075534196338404706251868027512415973882408182135734368278484639385041047239877871023591066789981811181813306167128854888448, 1] (by decide)
  simp only [List.map_cons, List.map_nil] at hv
  refine ⟨by decide!, hv, ?_⟩
  rw [bfhl_single _ _ _ _ _ (by decide), dispatch_lcm _ _ _ _ _ hv]
  have hq : jsDiv (jsMul (JSNum.ofNat 99999999999999996973312221251036165947450327545502362648241750950346848435554075534196338404706251868027512415973882408182135734368278484639385041047239877871023591066789981811181813306167128854888448) (JSNum.ofNat 99999999999999996973312221251036165947450327545502362648241750950346848435554075534196338404706251868027512415973882408182135734368278484639385041047239877871023591066789981811181813306167128854888448)) (JSNum.ofNat 99999999999999996973312221251036165947450327545502362648241750950346848435554075534196338404706251868027512415973882408182135734368278484639385041047239877871023591066789981811181813306167128854888448)
      = JSNum.inf false := by decide!
  have hinf : ∀ d, gcd d (JSNum.inf false) (JSNum.ofNat 1) = .error .rangeError := by
    intro d
    cases d with
    | zero => rfl
    | succ d =>
        rw [gcd, jsStrictEq_ofNat]
        simp only [Nat.succ_ne_zero, decide_False, Bool.false_eq_true, if_false]
        exact gcd_nan d _
  simp only [numbers, reduce, List.foldlM_cons, List.foldlM_nil]
  rcases depth with _ | _ | depth
  · rfl
  · have h1 : gcd (0 + 1) (JSNum.ofNat 99999999999999996973312221251036165947450327545502362648241750950346848435554075534196338404706251868027512415973882408182135734368278484639385041047239877871023591066789981811181813306167128854888448) (JSNum.ofNat 99999999999999996973312221251036165947450327545502362648241750950346848435554075534196338404706251868027512415973882408182135734368278484639385041047239877871023591066789981811181813306167128854888448) = .error .rangeError := by
      rw [gcd, jsStrictEq_ofNat, decide_eq_false (by decide)]
      rfl
    simp only [lcm, h1]
    rfl
  · have hg := gcd_self depth 99999999999999996973312221251036165947450327545502362648241750950346848435554075534196338404706251868027512415973882408182135734368278484639385041047239877871023591066789981811181813306167128854888448 (by decide)
    simp only [lcm, hg, hq, bind, Except.bind, hinf]
    rfl

/-! ## The remaining validation gates -/

/-- C13. An object body with an own key `__proto__` is answered 400
"Invalid input", whatever its other keys and values are, and nothing is
submitted to the external collaborator. -/
theorem proto_key_rejected (depth steps : Nat) (ai : JSString → AIResult)
    (kvs : List (JSString × JSON)) (hproto : lit "__proto__" ∈ kvs.map Prod.fst) :
    bfhl depth steps ai (some (.obj kvs))
      = some ⟨[], Response.mk 400 false email (some (.str (lit "Invalid input")))⟩ := by
  simp only [bfhl, notAnObject, ownEntries, hproto, safeError, Bool.false_eq_true, if_false,
    if_true]

/-- Witness for C13: `__proto__` alone, and `__proto__` next to the allowed
key `fibonacci`. -/
theorem proto_key_rejected_witness :
    bfhl 0 0 (fun _ => AIResult.failure) (some (.obj [(lit "__proto__", .null)]))
      = some ⟨[], Response.mk 400 false email (some (.str (lit "Invalid input")))⟩
    ∧ bfhl 0 0 (fun _ => AIResult.failure)
        (some (.obj [(lit "fibonacci", .num (JSNum.ofNat 5)), (lit "__proto__", .obj [])]))
      = some ⟨[], Response.mk 400 false email (some (.str (lit "Invalid input")))⟩ :=
  ⟨proto_key_rejected 0 0 _ _ (by decide), proto_key_rejected 0 0 _ _ (by decide)⟩

theorem dropWhile_eq_nil_of_all (s : JSString) (h : s.all isWhite = true) :
    s.dropWhile isWhite = [] := by
  induction s with
  | nil => rfl
  | cons c cs ih =>
      simp only [List.all_cons, Bool.and_eq_true] at h
      rw [List.dropWhile_cons, if_pos h.1]
      exact ih h.2

/-- Trimming leaves nothing exactly when every code unit is whitespace. -/
theorem trim_length_eq_zero_iff (s : JSString) :
    (trim s).length = 0 ↔ s.all isWhite = true := by
  constructor
  · intro h
    have ht : trim s = [] := List.length_eq_zero.mp h
    simp only [trim, List.reverse_eq_nil_iff] at ht
    by_contra hall
    have hd : s.dropWhile isWhite ≠ [] := by
      intro hnil
      apply hall
      rw [List.all_eq_true]
      intro c hc
      by_contra hw
      have := (List.dropWhile_eq_nil_iff.mp hnil) c hc
      exact hw this
    obtain ⟨c, cs, hcs⟩ := List.exists_cons_of_ne_nil hd
    have hcw : isWhite c = false := by
      have h0 := List.head_dropWhile_not isWhite s hd
      have hh : (s.dropWhile isWhite).head hd = c := by simp [hcs]
      rw [hh] at h0
      exact h0
    have hall2 := List.dropWhile_eq_nil_iff.mp ht c
      (by rw [List.mem_reverse, hcs]; exact List.mem_cons_self _ _)
    rw [hcw] at hall2
    exact Bool.noConfusion hall2
  · intro h
    simp [trim, dropWhile_eq_nil_of_all s h]

/-- C15. On `{"AI": v}` the handler answers 400 "Invalid AI input", without
submitting anything to the external collaborator, when `v` is not a string or
is a string that is empty after trimming (that is, made of whitespace only);
and it answers 200 for every string with a non-whitespace code unit. -/
theorem ai_validation (depth steps : Nat) (ai : JSString → AIResult) (v : JSON) :
    ((∀ s, v = .str s → (trim s).length = 0) →
      bfhl depth steps ai (some (.obj [(lit "AI", v)]))
        = some ⟨[], Response.mk 400 false email (some (.str (lit "Invalid AI input")))⟩)
    ∧ (∀ s, v = .str s → (∃ c ∈ s, isWhite c = false) →
        (trim s).length ≠ 0
        ∧ ∃ d, bfhl depth steps ai (some (.obj [(lit "AI", v)]))
          = some ⟨[s.take 500], Response.mk 200 true email (some (.str d))⟩) := by
  rw [bfhl_single _ _ _ _ _ (by decide)]
  constructor
  · intro h
    cases v with
    | str s => rw [dispatch_AI, if_pos (h s rfl)]; rfl
    | null => rfl
    | bool b => rfl
    | num x => rfl
    | arr xs => rfl
    | obj kvs => rfl
  · rintro s rfl ⟨c, hc, hw⟩
    have hne : (trim s).length ≠ 0 := by
      intro h0
      have hall := (trim_length_eq_zero_iff s).mp h0
      rw [List.all_eq_true] at hall
      rw [hall c hc] at hw
      exact Bool.noConfusion hw
    refine ⟨hne, aiResult (ai (s.take 500)), ?_⟩
    rw [dispatch_AI, if_neg hne]
    rfl

/-- Witness for C15: a number and a string of two spaces are rejected, the
string `hi` is accepted. -/
theorem ai_validation_witness :
    bfhl 0 0 (fun _ => AIResult.failure) (some (.obj [(lit "AI", .num (JSNum.ofNat 7))]))
      = some ⟨[], Response.mk 400 false email (some (.str (lit "Invalid AI input")))⟩
    ∧ bfhl 0 0 (fun _ => AIResult.failure) (some (.obj [(lit "AI", .str (lit "  "))]))
      = some ⟨[], Response.mk 400 false email (some (.str (lit "Invalid AI input")))⟩
    ∧ ((trim (lit "hi")).length ≠ 0
      ∧ ∃ d, bfhl 0 0 (fun _ => AIResult.failure) (some (.obj [(lit "AI", .str (lit "hi"))]))
          = some ⟨[(lit "hi").take 500], Response.mk 200 true email (some (.str d))⟩) :=
  ⟨(ai_validation 0 0 _ _).1 (fun s h => by cases h),
   (ai_validation 0 0 _ _).1 (fun s h => by cases h; decide),
   (ai_validation 0 0 _ _).2 (lit "hi") rfl ⟨104, by decide, by decide⟩⟩

/-- C16. For a valid AI request with string `s` the external collaborator is
called exactly once, and the prompt is the prefix of `s` made of its first
`min 500 (length s)` code units: never more than 500, and `s` itself when `s`
has at most 500. -/
theorem ai_prompt_prefix (depth steps : Nat) (ai : JSString → AIResult) (s : JSString)
    (hs : (trim s).length ≠ 0) :
    ∃ out, bfhl depth steps ai (some (.obj [(lit "AI", .str s)])) = some out
      ∧ out.prompts = [s.take 500]
      ∧ out.prompts.length = 1
      ∧ (s.take 500).length = min 500 s.length
      ∧ (s.take 500).length ≤ 500
      ∧ s.take 500 <+: s
      ∧ (s.length ≤ 500 → s.take 500 = s) := by
  refine ⟨⟨[s.take 500], success (some (.str (aiResult (ai (s.take 500)))))⟩, ?_, rfl, rfl,
    List.length_take _ _, ?_, List.take_prefix _ _, fun h => List.take_of_length_le h⟩
  · rw [bfhl_single _ _ _ _ _ (by decide), dispatch_AI, if_neg hs]
  · rw [List.length_take]; exact Nat.min_le_left _ _

/-- Witness for C16: the prompt `hi`. -/
theorem ai_prompt_prefix_witness :
    (trim (lit "hi")).length ≠ 0
    ∧ ∃ out, bfhl 0 0 (fun _ => AIResult.failure) (some (.obj [(lit "AI", .str (lit "hi"))]))
        = some out
      ∧ out.prompts = [(lit "hi").take 500]
      ∧ out.prompts.length = 1
      ∧ ((lit "hi").take 500).length = min 500 (lit "hi").length
      ∧ ((lit "hi").take 500).length ≤ 500
      ∧ (lit "hi").take 500 <+: lit "hi"
      ∧ ((lit "hi").length ≤ 500 → (lit "hi").take 500 = lit "hi") :=
  ⟨by decide, ai_prompt_prefix 0 0 _ (lit "hi") (by decide)⟩

/-! ## The text taken from the collaborator's response -/

theorem extractText_eq (data : JSON) :
    extractText data =
      match textAt data with
      | none => .ok (lit "Unknown")
      | some .null => .ok (lit "Unknown")
      | some (.str s) =>
          .ok (if (s.takeWhile (fun c => !isWhite c)).isEmpty then lit "Unknown"
            else s.takeWhile (fun c => !isWhite c))
      | some _ => .error .typeError := rfl

theorem firstToken_of_head (c : Nat) (rest : JSString) (hc : isWhite c = false) :
    firstToken (c :: rest) = (c :: rest).takeWhile (fun c => !isWhite c)
      ∧ (c :: rest).takeWhile (fun c => !isWhite c) ≠ [] := by
  constructor
  · simp [firstToken, List.dropWhile_cons, hc]
  · simp [List.takeWhile_cons, hc]

/-- What the handler answers to a valid AI request whose collaborator call
succeeds, leading whitespace apart: 200 with the first whitespace-delimited token of
the text at `candidates[0].content.parts[0].text` when that text is a string
starting with a non-whitespace code unit; "Unknown" when that text is the
empty string or the path yields `undefined` or `null`; "Unavailable" when the
value there is neither a string nor `null`. -/
theorem ai_first_token (depth steps : Nat) (ai : JSString → AIResult) (s : JSString)
    (data : JSON) (hs : (trim s).length ≠ 0) (hok : ai (s.take 500) = AIResult.success data) :
    ∃ d, bfhl depth steps ai (some (.obj [(lit "AI", .str s)]))
        = some ⟨[s.take 500], Response.mk 200 true email (some (.str d))⟩
      ∧ (∀ c rest, textAt data = some (.str (c :: rest)) → isWhite c = false →
          d = firstToken (c :: rest) ∧ d ≠ [])
      ∧ (textAt data = some (.str []) ∨ textAt data = none ∨ textAt data = some .null →
          d = lit "Unknown")
      ∧ (∀ t, textAt data = some t → t ≠ .null → (∀ text, t ≠ .str text) →
          d = lit "Unavailable") := by
  refine ⟨aiResult (ai (s.take 500)), ?_, ?_, ?_, ?_⟩
  · rw [bfhl_single _ _ _ _ _ (by decide), dispatch_AI, if_neg hs]
    rfl
  · intro c rest ht hc
    obtain ⟨h1, h2⟩ := firstToken_of_head c rest hc
    have hne : ((c :: rest).takeWhile (fun c => !isWhite c)).isEmpty = false := by
      cases hl : (c :: rest).takeWhile (fun c => !isWhite c) with
      | nil => exact absurd hl h2
      | cons a as => rfl
    rw [hok, aiResult, extractText_eq, ht]
    simp only [hne, Bool.false_eq_true, if_false]
    exact ⟨h1.symm, h2⟩
  · intro h
    rw [hok, aiResult, extractText_eq]
    rcases h with h | h | h
    · rw [h]; rfl
    · rw [h]
    · rw [h]
  · intro t ht hnull hstr
    rw [hok, aiResult, extractText_eq, ht]
    cases t with
    | null => exact absurd rfl hnull
    | str text => exact absurd rfl (hstr text)
    | bool b => rfl
    | num x => rfl
    | arr xs => rfl
    | obj kvs => rfl

/-- An instance of `ai_first_token`: the response text `Paris is ...` gives `Paris`. -/
theorem ai_first_token_witness :
    (trim (lit "capital of France?")).length ≠ 0
    ∧ ∃ d, bfhl 0 0 (fun _ => AIResult.success (.obj [(lit "candidates", .arr [.obj
          [(lit "content", .obj [(lit "parts", .arr [.obj
            [(lit "text", .str (lit "Paris is the capital"))]])])]])]))
          (some (.obj [(lit "AI", .str (lit "capital of France?"))]))
        = some ⟨[(lit "capital of France?").take 500],
            Response.mk 200 true email (some (.str d))⟩
      ∧ d = lit "Paris" := by
  obtain ⟨d, h1, h2, _, _⟩ := ai_first_token 0 0
    (fun _ => AIResult.success (.obj [(lit "candidates", .arr [.obj
      [(lit "content", .obj [(lit "parts", .arr [.obj
        [(lit "text", .str (lit "Paris is the capital"))]])])]])]))
    (lit "capital of France?") _ (by decide) rfl
  refine ⟨by decide, d, h1, ?_⟩
  have h3 := (h2 80 (lit "aris is the capital") rfl (by decide)).1
  rw [h3]
  decide

/-- C11 (evaluation at the failing input). The response text ` hi` (a space,
then `hi`) is found at `candidates[0].content.parts[0].text` and its first
whitespace-delimited token is `hi`, but the handler answers 200 with
"Unknown": `split(/\s+/)[0]` of a text with leading whitespace is the empty
string. -/
theorem ai_first_token_leading_space :
    textAt (.obj [(lit "candidates", .arr [.obj [(lit "content", .obj [(lit "parts", .arr [.obj
        [(lit "text", .str (lit " hi"))]])])]])]) = some (.str (lit " hi"))
    ∧ firstToken (lit " hi") = lit "hi"
    ∧ bfhl 0 0 (fun _ => AIResult.success (.obj [(lit "candidates", .arr [.obj
          [(lit "content", .obj [(lit "parts", .arr [.obj
            [(lit "text", .str (lit " hi"))]])])]])]))
          (some (.obj [(lit "AI", .str (lit "q"))]))
        = some ⟨[lit "q"], Response.mk 200 true email (some (.str (lit "Unknown")))⟩
    ∧ lit "Unknown" ≠ firstToken (lit " hi") := by
  refine ⟨rfl, by decide, ?_, by decide⟩
  rw [bfhl_single _ _ _ _ _ (by decide), dispatch_AI, if_neg (by decide)]
  rfl

/-! ## Correctness and termination of `isPrime` and `gcd` -/

theorem ofInt_of_nonneg (z : Int) (hz : 0 ≤ z) : JSNum.ofInt z = JSNum.ofNat z.toNat := by
  simp only [JSNum.ofInt, ofNat_eq, JSNum.fin.injEq]
  push_cast
  rw [Int.toNat_of_nonneg hz]

/-- C17. For every integer `z` (a binary64 value), `isPrime(z)` returns, after
at most `z + 1` evaluations of the loop condition, `true` exactly when `z` is
prime, that is `z >= 2` and no `d` with `2 <= d < z` divides `z`; it returns
`false` for every `z < 2`. -/
theorem isPrime_iff_prime (z : Int) (hd : isDouble (JSNum.ofInt z) = true) (steps : Nat)
    (hs : z.toNat + 1 ≤ steps) :
    ∃ b, isPrime steps (JSNum.ofInt z) = some b
      ∧ (b = true ↔ 2 ≤ z ∧ ∀ d : Nat, 2 ≤ d → (d : Int) < z → ¬ (d : Int) ∣ z)
      ∧ (b = true ↔ Nat.Prime z.toNat)
      ∧ (z < 2 → b = false) := by
  by_cases hz : z < 0
  · refine ⟨false, ?_, ?_, ?_, fun _ => rfl⟩
    · have hU : (0:Int) < (UNIT : Int) := by exact_mod_cast UNIT_pos
      exact isPrime_negative steps _ (Int.mul_neg_of_neg_of_pos hz hU)
    · constructor
      · intro h; exact Bool.noConfusion h
      · rintro ⟨h2, _⟩; omega
    · constructor
      · intro h; exact Bool.noConfusion h
      · intro hp
        have h0 : z.toNat = 0 := Int.toNat_eq_zero.mpr (by omega)
        rw [h0] at hp
        exact absurd hp Nat.not_prime_zero
  · have hz0 : 0 ≤ z := by omega
    obtain ⟨n, rfl⟩ := Int.eq_ofNat_of_zero_le hz0
    rw [ofInt_of_nonneg _ hz0] at hd ⊢
    simp only [Int.toNat_ofNat] at hd hs ⊢
    refine ⟨decide (Nat.Prime n), isPrime_ofNat n hd steps hs, ?_, by simp, ?_⟩
    · rw [decide_eq_true_iff, Nat.prime_def_lt']
      constructor
      · rintro ⟨h2, h⟩
        refine ⟨by exact_mod_cast h2, fun d hd2 hdz hdvd => ?_⟩
        exact h d hd2 (by exact_mod_cast hdz) (Int.natCast_dvd_natCast.mp hdvd)
      · rintro ⟨h2, h⟩
        refine ⟨by exact_mod_cast h2, fun d hd2 hdn hdvd => ?_⟩
        exact h d hd2 (by exact_mod_cast hdn) (Int.natCast_dvd_natCast.mpr hdvd)
    · intro h2
      have hn : n < 2 := by exact_mod_cast h2
      have hnp : ¬ Nat.Prime n := fun hp => by have := hp.two_le; omega
      exact decide_eq_false hnp

/-- Witness for C17: 7 is prime, 9 is not, -3 is not. -/
theorem isPrime_iff_prime_witness :
    isPrime 8 (JSNum.ofInt 7) = some true ∧ isPrime 10 (JSNum.ofInt 9) = some false
    ∧ isPrime 1 (JSNum.ofInt (-3)) = some false := by
  obtain ⟨b7, h7, _, hp7, _⟩ := isPrime_iff_prime 7 (by decide) 8 (by decide)
  obtain ⟨b9, h9, _, hp9, _⟩ := isPrime_iff_prime 9 (by decide) 10 (by decide)
  obtain ⟨b3, h3, _, _, hn3⟩ := isPrime_iff_prime (-3) (by decide) 1 (by decide)
  have e7 : b7 = true := hp7.mpr (by show Nat.Prime 7; norm_num)
  have e9 : b9 = false := by
    cases b9 with
    | false => rfl
    | true => exact absurd (hp9.mp rfl) (by show ¬ Nat.Prime 9; norm_num)
  have e3 : b3 = false := hn3 (by decide)
  rw [e7] at h7; rw [e9] at h9; rw [e3] at h3
  exact ⟨h7, h9, h3⟩

/-- C20. The recursion of `gcd` on non-negative integers ends: a zero second
argument returns at once, every recursive call has a strictly smaller second
argument `a % b < b`, and `2 * k + 1` stack frames are enough when `b < 2^k`.
The loop of `isPrime` ends on every integer binary64 value. -/
theorem gcd_and_isPrime_terminate :
    (∀ (depth : Nat) (a : JSNum), gcd (depth + 1) a (JSNum.ofNat 0) = .ok a)
    ∧ (∀ (depth a b : Nat), b ≠ 0 →
        gcd (depth + 1) (JSNum.ofNat a) (JSNum.ofNat b)
          = gcd depth (JSNum.ofNat b) (JSNum.ofNat (a % b)) ∧ a % b < b)
    ∧ (∀ (a b k depth : Nat), b < 2 ^ k → 2 * k + 1 ≤ depth →
        gcd depth (JSNum.ofNat a) (JSNum.ofNat b) = .ok (JSNum.ofNat (Nat.gcd a b)))
    ∧ (∀ x : JSNum, numIsInteger x = true → isDouble x = true →
        ∃ bound, ∀ steps, bound ≤ steps → ∃ r, isPrime steps x = some r) := by
  refine ⟨?_, ?_, ?_, ?_⟩
  · intro depth a
    rw [gcd, jsStrictEq_ofNat]
    simp
  · intro depth a b hb
    refine ⟨?_, Nat.mod_lt _ (Nat.pos_of_ne_zero hb)⟩
    rw [gcd, jsStrictEq_ofNat, decide_eq_false hb, jsMod_ofNat a b hb]
    simp
  · intro a b k depth hb hd
    exact gcd_ofNat k a b depth hb hd
  · intro x hint hd
    rcases integer_cases x hint with ⟨n, rfl⟩ | ⟨k, hk, rfl⟩
    · exact ⟨n + 1, fun steps hs => ⟨_, isPrime_ofNat n hd steps hs⟩⟩
    · exact ⟨0, fun steps _ => ⟨_, isPrime_negative steps k hk⟩⟩

/-- Witness for C20: `gcd(48, 18)` with 11 stack frames, and `isPrime(97)`. -/
theorem gcd_and_isPrime_terminate_witness :
    gcd 11 (JSNum.ofNat 48) (JSNum.ofNat 18) = .ok (JSNum.ofNat (Nat.gcd 48 18))
    ∧ (gcd (10 + 1) (JSNum.ofNat 48) (JSNum.ofNat 18)
          = gcd 10 (JSNum.ofNat 18) (JSNum.ofNat (48 % 18)) ∧ 48 % 18 < 18)
    ∧ ∃ bound, ∀ steps, bound ≤ steps → ∃ r, isPrime steps (JSNum.ofNat 97) = some r :=
  ⟨gcd_and_isPrime_terminate.2.2.1 48 18 5 11 (by decide) (by decide),
   gcd_and_isPrime_terminate.2.1 10 48 18 (by decide),
   gcd_and_isPrime_terminate.2.2.2 (JSNum.ofNat 97) (by decide) (by decide)⟩

/-! ## The shape of every response -/

theorem envelope_safeError (status : Nat) (msg : String) (h : status = 400 ∨ status = 500) :
    Envelope (safeError status msg) := by
  refine ⟨rfl, by simp [safeError], ?_, Or.inr h, fun _ => ⟨_, rfl⟩⟩
  constructor
  · intro hc; exact Bool.noConfusion hc
  · intro hc
    simp only [safeError] at hc
    omega

theorem envelope_success (d : JSON) : Envelope (success (some d)) := by
  refine ⟨rfl, by simp [success], ⟨fun _ => rfl, fun _ => rfl⟩, Or.inl rfl, ?_⟩
  intro hc
  exact Bool.noConfusion hc

/-- Whatever branch is taken, a response that is sent has the envelope shape. -/
theorem dispatch_envelope (depth steps : Nat) (ai : JSString → AIResult) (key : JSString)
    (value : JSON) (hk : key ∈ allowedKeys) (out : Outcome)
    (h : dispatch depth steps ai key value = some out) : Envelope out.response := by
  unfold dispatch at h
  repeat' split at h
  all_goals first
    | (cases h; exact envelope_safeError _ _ (Or.inl rfl))
    | (cases h; exact envelope_safeError _ _ (Or.inr rfl))
    | (cases h; exact envelope_success _)
    | (exfalso; simp only [allowedKeys, List.mem_cons, List.mem_singleton, List.not_mem_nil,
        or_false] at hk; tauto)

theorem bfhl_envelope (depth steps : Nat) (ai : JSString → AIResult) (body : Option JSON)
    (out : Outcome) (h : bfhl depth steps ai body = some out) : Envelope out.response := by
  unfold bfhl at h
  simp only [] at h
  repeat' split at h
  all_goals first
    | (cases h; exact envelope_safeError _ _ (Or.inl rfl))
    | (rename_i hk; exact dispatch_envelope _ _ _ _ _ (by simpa using hk) out h)

/-- The only branch that can still be running when the iteration budget ends
is the `prime` filter. -/
theorem dispatch_ne_none (depth steps : Nat) (ai : JSString → AIResult) (key : JSString)
    (value : JSON) (hv : ∀ xs, value = .arr xs → ∀ w ∈ xs, keepPrime steps w ≠ none) :
    dispatch depth steps ai key value ≠ none := by
  intro h
  unfold dispatch at h
  repeat' split at h
  all_goals first
    | (exact Option.noConfusion h)
    | (rename_i v vs _ hpf
       rw [primeFilter_eq steps (v :: vs) (hv _ rfl)] at hpf
       exact Option.noConfusion hpf)

theorem bfhl_ne_none (depth steps : Nat) (ai : JSString → AIResult) (body : Option JSON)
    (hv : ∀ b key xs, body = some b → (key, JSON.arr xs) ∈ ownEntries b →
      ∀ w ∈ xs, keepPrime steps w ≠ none) :
    bfhl depth steps ai body ≠ none := by
  intro h
  unfold bfhl at h
  simp only [] at h
  repeat' split at h
  all_goals first
    | (exact Option.noConfusion h)
    | (rename_i b _ _ _ _ key value hent _
       refine dispatch_ne_none depth steps ai key value ?_ h
       intro xs hx
       subst hx
       exact hv b key xs rfl (by rw [hent]; exact List.mem_singleton_self _))

/-- One iteration budget is enough for every array among the entries. -/
theorem exists_budget_entries (entries : List (JSString × JSON))
    (hd : ∀ key xs x, (key, JSON.arr xs) ∈ entries → JSON.num x ∈ xs → isDouble x = true) :
    ∃ bound, ∀ steps, bound ≤ steps → ∀ key xs, (key, JSON.arr xs) ∈ entries →
      ∀ w ∈ xs, keepPrime steps w ≠ none := by
  induction entries with
  | nil => exact ⟨0, fun _ _ key xs h => by cases h⟩
  | cons e es ih =>
      obtain ⟨b1, h1⟩ := ih (fun key xs x hm hx => hd key xs x (List.mem_cons_of_mem _ hm) hx)
      obtain ⟨k, v⟩ := e
      by_cases hv : ∃ ys, v = JSON.arr ys
      · obtain ⟨ys, rfl⟩ := hv
        obtain ⟨b2, h2⟩ := exists_budget ys
          (fun x hx => hd k ys x (List.mem_cons_self _ _) hx)
        refine ⟨max b1 b2, fun steps hs key xs hm w hw => ?_⟩
        rcases List.mem_cons.mp hm with he | hm
        · cases he
          apply keepPrime_ne_none_of
          intro x hx hint
          subst hx
          exact (h2 steps (le_trans (le_max_right _ _) hs) x hw).1 hint
        · exact h1 steps (le_trans (le_max_left _ _) hs) key xs hm w hw
      · refine ⟨b1, fun steps hs key xs hm w hw => ?_⟩
        rcases List.mem_cons.mp hm with he | hm
        · cases he
          exact absurd ⟨xs, rfl⟩ hv
        · exact h1 steps hs key xs hm w hw

theorem exists_budget_body (body : Option JSON) (hp : ParsedNumbers body) :
    ∃ bound, ∀ steps, bound ≤ steps → ∀ (depth : Nat) (ai : JSString → AIResult),
      bfhl depth steps ai body ≠ none := by
  cases body with
  | none => exact ⟨0, fun steps _ depth ai => bfhl_ne_none _ _ _ _ (fun b _ _ h => by cases h)⟩
  | some b =>
      obtain ⟨bound, hb⟩ := exists_budget_entries (ownEntries b)
        (fun key xs x hm hx => hp b key xs x rfl hm hx)
      refine ⟨bound, fun steps hs depth ai => bfhl_ne_none _ _ _ _ ?_⟩
      intro b' key xs hb' hm
      cases hb'
      exact hb steps hs key xs hm

/-- C12. For every request body (its numbers being binary64 values) and every
behaviour of the external collaborator, the handler responds once the loop of
`isPrime` has enough iterations, and the response is the envelope: the fixed
`official_email`, a defined `data`, `is_success` true exactly when the status
is 200 (the only other statuses being 400 and 500), and a message string as
data on every failure. -/
theorem envelope_on_every_path (body : Option JSON) (hp : ParsedNumbers body) :
    (∀ (depth steps : Nat) (ai : JSString → AIResult) (out : Outcome),
      bfhl depth steps ai body = some out → Envelope out.response)
    ∧ ∃ bound, ∀ steps, bound ≤ steps → ∀ (depth : Nat) (ai : JSString → AIResult),
        ∃ out, bfhl depth steps ai body = some out ∧ Envelope out.response := by
  refine ⟨fun depth steps ai out h => bfhl_envelope depth steps ai body out h, ?_⟩
  obtain ⟨bound, hb⟩ := exists_budget_body body hp
  refine ⟨bound, fun steps hs depth ai => ?_⟩
  cases h : bfhl depth steps ai body with
  | none => exact absurd h (hb steps hs depth ai)
  | some out => exact ⟨out, rfl, bfhl_envelope depth steps ai body out h⟩

/-- Witness for C12: the body `{"hcf": [12, 18]}`. -/
theorem envelope_on_every_path_witness :
    ParsedNumbers (some (.obj [(lit "hcf", .arr [.num (JSNum.ofNat 12), .num (JSNum.ofNat 18)])]))
    ∧ ((∀ (depth steps : Nat) (ai : JSString → AIResult) (out : Outcome),
      bfhl depth steps ai
          (some (.obj [(lit "hcf", .arr [.num (JSNum.ofNat 12), .num (JSNum.ofNat 18)])]))
        = some out → Envelope out.response)
    ∧ ∃ bound, ∀ steps, bound ≤ steps → ∀ (depth : Nat) (ai : JSString → AIResult),
        ∃ out, bfhl depth steps ai
            (some (.obj [(lit "hcf", .arr [.num (JSNum.ofNat 12), .num (JSNum.ofNat 18)])]))
          = some out ∧ Envelope out.response) := by
  have hp : ParsedNumbers
      (some (.obj [(lit "hcf", .arr [.num (JSNum.ofNat 12), .num (JSNum.ofNat 18)])])) := by
    intro b key xs x hb hm hx
    cases hb
    simp only [ownEntries, List.mem_singleton, Prod.mk.injEq, JSON.arr.injEq] at hm
    obtain ⟨_, rfl⟩ := hm
    simp only [List.mem_cons, JSON.num.injEq, List.mem_singleton, List.not_mem_nil,
      or_false] at hx
    rcases hx with rfl | rfl <;> decide
  exact ⟨hp, envelope_on_every_path _ hp⟩

/-- C14. On `{"prime": v}` the handler answers 400
"Prime input must be non-empty array" when `v` is not an array or is the empty
array; for a non-empty array it never answers anything but 200 with an array
as data, and it does answer (once the loop of `isPrime` has enough iterations)
whatever the elements are, the numbers being binary64 values. -/
theorem prime_validation (depth : Nat) (ai : JSString → AIResult) (v : JSON) :
    ((∀ x xs, v ≠ .arr (x :: xs)) → ∀ steps,
      bfhl depth steps ai (some (.obj [(lit "prime", v)]))
        = some ⟨[], Response.mk 400 false email
            (some (.str (lit "Prime input must be non-empty array")))⟩)
    ∧ (∀ x xs, v = .arr (x :: xs) →
        (∀ steps out, bfhl depth steps ai (some (.obj [(lit "prime", v)])) = some out →
          ∃ result, out = ⟨[], Response.mk 200 true email (some (.arr result))⟩)
        ∧ ((∀ y, JSON.num y ∈ x :: xs → isDouble y = true) →
            ∃ bound, ∀ steps, bound ≤ steps → ∃ result,
              bfhl depth steps ai (some (.obj [(lit "prime", v)]))
                = some ⟨[], Response.mk 200 true email (some (.arr result))⟩)) := by
  constructor
  · intro hv steps
    rw [bfhl_single _ _ _ _ _ (by decide)]
    cases v with
    | arr ys =>
        cases ys with
        | nil => rfl
        | cons y ys => exact absurd rfl (hv y ys)
    | null => rfl
    | bool b => rfl
    | num x => rfl
    | str s => rfl
    | obj kvs => rfl
  · rintro x xs rfl
    constructor
    · intro steps out h
      rw [bfhl_single _ _ _ _ _ (by decide), dispatch_prime] at h
      cases hpf : primeFilter steps (x :: xs) with
      | none => rw [hpf] at h; exact Option.noConfusion h
      | some result =>
          rw [hpf] at h
          simp only [Option.some.injEq] at h
          exact ⟨result, h.symm⟩
    · intro hd
      obtain ⟨bound, hb⟩ := exists_budget (x :: xs) hd
      refine ⟨bound, fun steps hs => ⟨(x :: xs).filter (integerAndPrime steps), ?_⟩⟩
      rw [bfhl_single _ _ _ _ _ (by decide), dispatch_prime, primeFilter_eq]
      · rfl
      · intro w hw
        apply keepPrime_ne_none_of
        intro y hy hint
        subst hy
        exact (hb steps hs y hw).1 hint

/-- Witness for C14: a number and the empty array are rejected; the array
`["a", 4]` is accepted and gives the empty array. -/
theorem prime_validation_witness :
    bfhl 0 0 (fun _ => AIResult.failure) (some (.obj [(lit "prime", .num (JSNum.ofNat 7))]))
      = some ⟨[], Response.mk 400 false email
          (some (.str (lit "Prime input must be non-empty array")))⟩
    ∧ bfhl 0 0 (fun _ => AIResult.failure) (some (.obj [(lit "prime", .arr [])]))
      = some ⟨[], Response.mk 400 false email
          (some (.str (lit "Prime input must be non-empty array")))⟩
    ∧ (∃ bound, ∀ steps, bound ≤ steps → ∃ result,
        bfhl 0 steps (fun _ => AIResult.failure)
            (some (.obj [(lit "prime", .arr [.str (lit "a"), .num (JSNum.ofNat 4)])]))
          = some ⟨[], Response.mk 200 true email (some (.arr result))⟩)
    ∧ bfhl 0 3 (fun _ => AIResult.failure)
          (some (.obj [(lit "prime", .arr [.str (lit "a"), .num (JSNum.ofNat 4)])]))
        = some ⟨[], Response.mk 200 true email (some (.arr []))⟩ := by
  refine ⟨(prime_validation 0 _ _).1 (fun x xs h => by cases h) 0,
    (prime_validation 0 _ _).1 (fun x xs h => by cases h) 0,
    ((prime_validation 0 _ _).2 _ _ rfl).2 ?_, rfl⟩
  intro y hy
  simp only [List.mem_cons, JSON.num.injEq, List.mem_singleton, List.not_mem_nil, or_false,
    false_or] at hy
  rcases hy with hy | rfl
  · cases hy
  · decide

/-! ## The catch-all branch and the order of the reduction -/

/-- With an infinite or NaN first argument and a non-zero second one, `gcd`
computes a NaN remainder and never returns. -/
theorem gcd_nonfinite (depth : Nat) (x : JSNum) (m : Nat) (hm : m ≠ 0)
    (hx : (∃ s, x = JSNum.inf s) ∨ x = JSNum.nan) :
    gcd depth x (JSNum.ofNat m) = .error .rangeError := by
  cases depth with
  | zero => rfl
  | succ depth =>
      rw [gcd, jsStrictEq_ofNat, decide_eq_false hm]
      simp only [Bool.false_eq_true, if_false]
      have hmod : jsMod x (JSNum.ofNat m) = JSNum.nan := by
        rcases hx with ⟨s, rfl⟩ | rfl <;> rfl
      rw [hmod]
      exact gcd_nan depth _

theorem jsDiv_inf (g : JSNum) :
    (∃ s, jsDiv (JSNum.inf false) g = JSNum.inf s) ∨ jsDiv (JSNum.inf false) g = JSNum.nan := by
  cases g with
  | fin b => exact Or.inl ⟨_, rfl⟩
  | inf s => exact Or.inr rfl
  | nan => exact Or.inr rfl

/-- Once a product overflows, the next step of the `lcm` reduction raises. -/
theorem foldlM_lcm_overflow (depth : Nat) (a b : JSNum) (m : Nat) (hm : m ≠ 0)
    (rest : List JSNum) (h : jsMul a b = JSNum.inf false) :
    ∃ e, List.foldlM (lcm depth) a (b :: JSNum.ofNat m :: rest) = .error e := by
  simp only [List.foldlM_cons, lcm, h]
  cases hg : gcd depth a b with
  | error e => exact ⟨e, rfl⟩
  | ok g =>
      refine ⟨.rangeError, ?_⟩
      simp only [bind, Except.bind]
      rw [gcd_nonfinite depth _ m hm (jsDiv_inf g)]

/-- C18 (evaluation at the failing input). The array `[2^1023, 4, 3]`
(`8.98846567431158e307` is `2^1023`) is made of positive integers that are
binary64 values, yet on `{"lcm": [2^1023, 4, 3]}` the handler answers 500
"Internal server error" at every stack depth: `2^1023 * 4` overflows to
`Infinity` and `gcd(Infinity, 3)` recurses on NaN until the stack is exhausted. -/
theorem internal_error_reachable (depth steps : Nat) (ai : JSString → AIResult) :
    ParsedNumbers (some (.obj [(lit "lcm",
        .arr [.num (JSNum.ofNat (2 ^ 1023)), .num (JSNum.ofNat 4), .num (JSNum.ofNat 3)])]))
    ∧ [JSON.num (JSNum.ofNat (2 ^ 1023)), .num (JSNum.ofNat 4), .num (JSNum.ofNat 3)].any
        invalidElem = false
    ∧ bfhl depth steps ai (some (.obj [(lit "lcm",
        .arr [.num (JSNum.ofNat (2 ^ 1023)), .num (JSNum.ofNat 4), .num (JSNum.ofNat 3)])]))
      = some ⟨[], Response.mk 500 false email (some (.str (lit "Internal server error")))⟩ := by
  have hv := any_invalidElem_ofNat [2 ^ 1023, 4, 3] (by decide)
  simp only [List.map_cons, List.map_nil] at hv
  refine ⟨?_, hv, ?_⟩
  · intro b key xs x hb hm hx
    cases hb
    simp only [ownEntries, List.mem_singleton, Prod.mk.injEq, JSON.arr.injEq] at hm
    obtain ⟨_, rfl⟩ := hm
    simp only [List.mem_cons, JSON.num.injEq, List.mem_singleton, List.not_mem_nil,
      or_false] at hx
    rcases hx with rfl | rfl | rfl
    · decide!
    · decide
    · decide
  · have hmul : jsMul (JSNum.ofNat (2 ^ 1023)) (JSNum.ofNat 4) = JSNum.inf false := by decide!
    obtain ⟨e, he⟩ := foldlM_lcm_overflow depth _ _ 3 (by decide) [] hmul
    rw [bfhl_single _ _ _ _ _ (by decide), dispatch_lcm _ _ _ _ _ hv]
    simp only [numbers, reduce, he]
    rfl

theorem lcm_ofNat (k a b depth : Nat) (hb : b < 2 ^ k) (hd : 2 * k + 1 ≤ depth) :
    lcm depth (JSNum.ofNat a) (JSNum.ofNat b)
      = .ok (jsDiv (jsMul (JSNum.ofNat a) (JSNum.ofNat b)) (JSNum.ofNat (Nat.gcd a b))) := by
  rw [lcm, gcd_ofNat k a b depth hb hd]

/-- The greatest common divisor computed by the left fold does not depend on
the order of the elements. -/
theorem foldl_gcd_perm (n m : Nat) (ns ms : List Nat) (h : (n :: ns).Perm (m :: ms)) :
    ns.foldl Nat.gcd n = ms.foldl Nat.gcd m := by
  have h0 : ∀ (x : Nat) (xs : List Nat), xs.foldl Nat.gcd x = (x :: xs).foldl Nat.gcd 0 := by
    intro x xs
    simp [List.foldl_cons, Nat.gcd_zero_left]
  rw [h0 n ns, h0 m ms]
  apply List.Perm.foldl_eq' h
  intro x _ y _ z
  rw [Nat.gcd_assoc, Nat.gcd_comm x y, ← Nat.gcd_assoc]

/-- Permuting a non-empty array of positive integers below `2^k` does not
change the response to `{"hcf": ...}`. -/
theorem hcf_order_independent (n m : Nat) (ns ms : List Nat) (h : (n :: ns).Perm (m :: ms))
    (hpos : ∀ x ∈ n :: ns, 0 < x) (k : Nat) (hk : ∀ x ∈ n :: ns, x < 2 ^ k)
    (depth : Nat) (hd : 2 * k + 1 ≤ depth) (steps : Nat) (ai : JSString → AIResult) :
    bfhl depth steps ai
        (some (.obj [(lit "hcf", .arr ((n :: ns).map (fun x => JSON.num (JSNum.ofNat x))))]))
      = bfhl depth steps ai
        (some (.obj [(lit "hcf", .arr ((m :: ms).map (fun x => JSON.num (JSNum.ofNat x))))])) := by
  have hpos' : ∀ x ∈ m :: ms, 0 < x := fun x hx => hpos x (h.mem_iff.mpr hx)
  have hk' : ∀ x ∈ m :: ms, x < 2 ^ k := fun x hx => hk x (h.mem_iff.mpr hx)
  have key : ∀ (a : Nat) (as : List Nat), (∀ x ∈ a :: as, 0 < x) → (∀ x ∈ a :: as, x < 2 ^ k) →
      bfhl depth steps ai
        (some (.obj [(lit "hcf", .arr ((a :: as).map (fun x => JSON.num (JSNum.ofNat x))))]))
      = some ⟨[], success (some (.num (JSNum.ofNat (as.foldl Nat.gcd a))))⟩ := by
    intro a as hp hb
    have hfold := foldlM_gcd_ofNat k depth hd as (fun x hx => hb x (List.mem_cons_of_mem _ hx)) a
    rw [bfhl_single _ _ _ _ _ (by decide)]
    have hv := any_invalidElem_ofNat (a :: as) hp
    simp only [List.map_cons] at hv ⊢
    rw [dispatch_hcf _ _ _ _ _ hv]
    simp only [numbers, numbers_ofNat, reduce, hfold]
  rw [key n ns hpos hk, key m ms hpos' hk', foldl_gcd_perm n m ns ms h]

/-- C19 (evaluation at the failing input). The arrays `[201060, 751986, 493109]`
and `[201060, 493109, 751986]` are permutations of each other, but the handler
answers `{"lcm": ...}` with 4141959590174580 for the first and with
4141959590174579.5 (`8283919180349159 * 2^-1`) for the second: the products
exceed `2^53` and are rounded differently. -/
theorem lcm_depends_on_order (depth steps : Nat) (ai : JSString → AIResult) :
    List.Perm [201060, 751986, 493109] [201060, 493109, 751986]
    ∧ bfhl (depth + 41) steps ai (some (.obj [(lit "lcm", .arr
        [.num (JSNum.ofNat 201060), .num (JSNum.ofNat 751986), .num (JSNum.ofNat 493109)])]))
      = some ⟨[], Response.mk 200 true email (some (.num (JSNum.ofNat 4141959590174580)))⟩
    ∧ bfhl (depth + 41) steps ai (some (.obj [(lit "lcm", .arr
        [.num (JSNum.ofNat 201060), .num (JSNum.ofNat 493109), .num (JSNum.ofNat 751986)])]))
      = some ⟨[], Response.mk 200 true email
          (some (.num (JSNum.fin ((8283919180349159 * 2 ^ 1073 : Nat) : Int))))⟩
    ∧ JSNum.ofNat 4141959590174580 ≠ JSNum.fin ((8283919180349159 * 2 ^ 1073 : Nat) : Int)
    ∧ numIsInteger (JSNum.fin ((8283919180349159 * 2 ^ 1073 : Nat) : Int)) = false := by
  have hd : 2 * 20 + 1 ≤ depth + 41 := by omega
  have hA1 : jsDiv (jsMul (JSNum.ofNat 201060) (JSNum.ofNat 751986))
      (JSNum.ofNat (Nat.gcd 201060 751986)) = JSNum.ofNat 8399683620 := by decide!
  have hA2 : jsDiv (jsMul (JSNum.ofNat 8399683620) (JSNum.ofNat 493109))
      (JSNum.ofNat (Nat.gcd 8399683620 493109)) = JSNum.ofNat 4141959590174580 := by decide!
  have hB1 : jsDiv (jsMul (JSNum.ofNat 201060) (JSNum.ofNat 493109))
      (JSNum.ofNat (Nat.gcd 201060 493109)) = JSNum.ofNat 99144495540 := by decide!
  have hB2 : jsDiv (jsMul (JSNum.ofNat 99144495540) (JSNum.ofNat 751986))
      (JSNum.ofNat (Nat.gcd 99144495540 751986))
      = JSNum.fin ((8283919180349159 * 2 ^ 1073 : Nat) : Int) := by decide!
  have hvA := any_invalidElem_ofNat [201060, 751986, 493109] (by decide)
  have hvB := any_invalidElem_ofNat [201060, 493109, 751986] (by decide)
  simp only [List.map_cons, List.map_nil] at hvA hvB
  refine ⟨by decide, ?_, ?_, by decide!, by decide!⟩
  · rw [bfhl_single _ _ _ _ _ (by decide), dispatch_lcm _ _ _ _ _ hvA]
    simp only [numbers, reduce, List.foldlM_cons, List.foldlM_nil]
    rw [lcm_ofNat 20 _ _ _ (by decide) hd, hA1]
    simp only [bind, Except.bind]
    rw [lcm_ofNat 20 _ _ _ (by decide) hd, hA2]
    rfl
  · rw [bfhl_single _ _ _ _ _ (by decide), dispatch_lcm _ _ _ _ _ hvB]
    simp only [numbers, reduce, List.foldlM_cons, List.foldlM_nil]
    rw [lcm_ofNat 20 _ _ _ (by decide) hd, hB1]
    simp only [bind, Except.bind]
    rw [lcm_ofNat 20 _ _ _ (by decide) hd, hB2]
    rfl

end Bfhl
